import Mathlib

/-!
Verification of the export-job pipeline of the task-dashboard repository
(`ExportService`, the `Export` mongoose model, the `/exports` routes and
`ExportCleanupJob`).  The JavaScript source is shallowly embedded: each
service method becomes a pure Lean function over explicit state, platform
functions (`crypto.md5`, `JSON.stringify`, `Date#toISOString`) are modelled
faithfully, and machine integers are `Nat` with explicit `% 2^32` where
overflow matters.
-/

namespace WsdExport

/-! ## Generic list and string helpers -/

/-- Splits a list into consecutive chunks of size `m + 1` (the `m + 1`
guarantees a positive chunk size).  Structural recursion on a fuel bounded
by the list length, so the function reduces in the kernel. -/
def chunksAux (fuel m : Nat) (l : List α) : List (List α) :=
  match fuel, l with
  | 0, _ => []
  | _, [] => []
  | fuel + 1, a :: l => (a :: l).take (m + 1) :: chunksAux fuel m (l.drop m)

def chunksOfSucc (m : Nat) (l : List α) : List (List α) := chunksAux l.length m l

/-- Number of occurrences of a character in a string. -/
def countChar (c : Char) (s : String) : Nat := s.data.count c

/-- Character for a single decimal digit. -/
def digitChar (d : Nat) : Char := Char.ofNat (48 + d)

/-- Decimal rendering of a natural number (model of JS number-to-string for
non-negative integers).  Structural recursion on a fuel bounded by `n`, so
the function reduces in the kernel. -/
def natCharsAux (fuel n : Nat) : List Char :=
  match fuel with
  | 0 => []
  | fuel + 1 => if n < 10 then [digitChar n] else natCharsAux fuel (n / 10) ++ [digitChar (n % 10)]

def natChars (n : Nat) : List Char := natCharsAux (n + 1) n

def natStr (n : Nat) : String := String.mk (natChars n)

/-- Lower-case hexadecimal digit character. -/
def hexDigitChar (n : Nat) : Char :=
  if n < 10 then Char.ofNat (48 + n) else Char.ofNat (87 + n)

/-- Two lower-case hex digits of a byte. -/
def byteHex (b : Nat) : List Char := [hexDigitChar (b / 16), hexDigitChar (b % 16)]

/-! ## MD5 (model of node `crypto.createHash('md5')`)

Reference: RFC 1321.  All 32-bit arithmetic is `Nat` reduced `% 2^32`. -/

def u32 : Nat := 4294967296

def md5K : List Nat :=
  [0xd76aa478, 0xe8c7b756, 0x242070db, 0xc1bdceee,
   0xf57c0faf, 0x4787c62a, 0xa8304613, 0xfd469501,
   0x698098d8, 0x8b44f7af, 0xffff5bb1, 0x895cd7be,
   0x6b901122, 0xfd987193, 0xa679438e, 0x49b40821,
   0xf61e2562, 0xc040b340, 0x265e5a51, 0xe9b6c7aa,
   0xd62f105d, 0x02441453, 0xd8a1e681, 0xe7d3fbc8,
   0x21e1cde6, 0xc33707d6, 0xf4d50d87, 0x455a14ed,
   0xa9e3e905, 0xfcefa3f8, 0x676f02d9, 0x8d2a4c8a,
   0xfffa3942, 0x8771f681, 0x6d9d6122, 0xfde5380c,
   0xa4beea44, 0x4bdecfa9, 0xf6bb4b60, 0xbebfbc70,
   0x289b7ec6, 0xeaa127fa, 0xd4ef3085, 0x04881d05,
   0xd9d4d039, 0xe6db99e5, 0x1fa27cf8, 0xc4ac5665,
   0xf4292244, 0x432aff97, 0xab9423a7, 0xfc93a039,
   0x655b59c3, 0x8f0ccc92, 0xffeff47d, 0x85845dd1,
   0x6fa87e4f, 0xfe2ce6e0, 0xa3014314, 0x4e0811a1,
   0xf7537e82, 0xbd3af235, 0x2ad7d2bb, 0xeb86d391]

def md5S : List Nat :=
  [7, 12, 17, 22, 7, 12, 17, 22, 7, 12, 17, 22, 7, 12, 17, 22,
   5, 9, 14, 20, 5, 9, 14, 20, 5, 9, 14, 20, 5, 9, 14, 20,
   4, 11, 16, 23, 4, 11, 16, 23, 4, 11, 16, 23, 4, 11, 16, 23,
   6, 10, 15, 21, 6, 10, 15, 21, 6, 10, 15, 21, 6, 10, 15, 21]

/-- 32-bit left rotation. -/
def rotl32 (x s : Nat) : Nat := ((x <<< s) ||| (x >>> (32 - s))) % u32

/-- Bitwise complement on 32 bits. -/
def not32 (x : Nat) : Nat := x ^^^ 0xffffffff

/-- The round functions F, G, H, I selected by the round index. -/
def md5F (i b c d : Nat) : Nat :=
  if i < 16 then (b &&& c) ||| (not32 b &&& d)
  else if i < 32 then (d &&& b) ||| (not32 d &&& c)
  else if i < 48 then b ^^^ c ^^^ d
  else c ^^^ (b ||| not32 d)

/-- The message-word index used in round `i`. -/
def md5G (i : Nat) : Nat :=
  if i < 16 then i
  else if i < 32 then (5 * i + 1) % 16
  else if i < 48 then (3 * i + 5) % 16
  else (7 * i) % 16

def md5Step (M : List Nat) (st : Nat × Nat × Nat × Nat) (i : Nat) : Nat × Nat × Nat × Nat :=
  let (a, b, c, d) := st
  let f := (md5F i b c d + a + md5K.getD i 0 + M.getD (md5G i) 0) % u32
  (d, (b + rotl32 f (md5S.getD i 0)) % u32, b, c)

def md5Block (st : Nat × Nat × Nat × Nat) (M : List Nat) : Nat × Nat × Nat × Nat :=
  let (a0, b0, c0, d0) := st
  let (a, b, c, d) := (List.range 64).foldl (md5Step M) st
  ((a0 + a) % u32, (b0 + b) % u32, (c0 + c) % u32, (d0 + d) % u32)

/-- Little-endian 32-bit words of a 64-byte block. -/
def bytesToWordsLE (bs : List Nat) : List Nat :=
  (chunksOfSucc 3 bs).map fun g =>
    g.getD 0 0 + 256 * g.getD 1 0 + 65536 * g.getD 2 0 + 16777216 * g.getD 3 0

/-- Little-endian bytes of the 64-bit bit-length field. -/
def lenBytesLE (n : Nat) : List Nat := (List.range 8).map fun i => (n >>> (8 * i)) % 256

/-- RFC 1321 padding: `0x80`, zeros to 56 mod 64, 64-bit little-endian bit length. -/
def md5Pad (msg : List Nat) : List Nat :=
  msg ++ 0x80 :: List.replicate ((119 - msg.length % 64) % 64) 0
      ++ lenBytesLE (8 * msg.length)

def wordBytesLE (w : Nat) : List Nat := [w % 256, (w >>> 8) % 256, (w >>> 16) % 256, (w >>> 24) % 256]

def md5Bytes (msg : List Nat) : List Nat :=
  let blocks := chunksOfSucc 63 (md5Pad msg)
  let st := blocks.foldl (fun st blk => md5Block st (bytesToWordsLE blk))
      (0x67452301, 0xefcdab89, 0x98badcfe, 0x10325476)
  wordBytesLE st.1 ++ wordBytesLE st.2.1 ++ wordBytesLE st.2.2.1 ++ wordBytesLE st.2.2.2

/-- UTF-8 bytes of a character (node hashes strings as UTF-8). -/
def utf8Bytes (c : Char) : List Nat :=
  let n := c.toNat
  if n < 0x80 then [n]
  else if n < 0x800 then [0xC0 + n / 64, 0x80 + n % 64]
  else if n < 0x10000 then [0xE0 + n / 4096, 0x80 + (n / 64) % 64, 0x80 + n % 64]
  else [0xF0 + n / 262144, 0x80 + (n / 4096) % 64, 0x80 + (n / 64) % 64, 0x80 + n % 64]

def strBytes (s : String) : List Nat := s.data.flatMap utf8Bytes

/-- `crypto.createHash('md5').update(s).digest('hex')`. -/
def md5hex (s : String) : String := String.mk ((md5Bytes (strBytes s)).map byteHex).flatten

/-! ## JSON string escaping (model of `JSON.stringify` on strings) -/

/-- Four lower-case hex digits. -/
def hex4 (n : Nat) : List Char :=
  [hexDigitChar (n / 4096 % 16), hexDigitChar (n / 256 % 16),
   hexDigitChar (n / 16 % 16), hexDigitChar (n % 16)]

/-- How `JSON.stringify` renders one character inside a string literal:
quote and backslash are escaped, the named control escapes are used for
\b \t \n \f \r, any other control character becomes `\u00XX`, and every
other character is passed through. -/
def jsonEscapeChar (c : Char) : List Char :=
  if c = '"' then ['\\', '"']
  else if c = '\\' then ['\\', '\\']
  else if c.toNat = 8 then ['\\', 'b']
  else if c.toNat = 9 then ['\\', 't']
  else if c.toNat = 10 then ['\\', 'n']
  else if c.toNat = 12 then ['\\', 'f']
  else if c.toNat = 13 then ['\\', 'r']
  else if c.toNat < 32 then '\\' :: 'u' :: hex4 c.toNat
  else [c]

def jsonEscape (s : String) : String := String.mk (s.data.flatMap jsonEscapeChar)

/-- A JSON string literal: `"` + escaped body + `"`. -/
def jsonQuote (s : String) : String := "\"" ++ jsonEscape s ++ "\""

/-! ## Filters and the cache key (`ExportService.generateCacheKey`)

Filter mappings are association lists in insertion order; `JSON.stringify`
serializes a JS object's string-valued fields in that order with no
whitespace. -/

abbrev Filters := List (String × String)

/-- `JSON.stringify(filters)` for a string-valued filter object. -/
def stringifyFilters (fs : Filters) : String :=
  "\x7b" ++ String.intercalate ","
    (fs.map fun kv => jsonQuote kv.1 ++ ":" ++ jsonQuote kv.2) ++ "\x7d"

/-- `generateCacheKey(filters, format)`:
`export:${format}:${md5(JSON.stringify(filters))}`. -/
def generateCacheKey (filters : Filters) (format : String) : String :=
  "export:" ++ format ++ ":" ++ md5hex (stringifyFilters filters)

/-! ## `Date#toISOString` (platform model)

Timestamps are milliseconds since the Unix epoch (non-negative, i.e. the
model covers dates from 1970 on, which includes every timestamp the service
creates).  Calendar conversion uses the standard civil-from-days algorithm. -/

/-- Decimal rendering left-padded with zeros to `w` digits. -/
def padNat (w n : Nat) : List Char :=
  List.replicate (w - (natChars n).length) '0' ++ natChars n

/-- Civil date `(year, month, day)` from days since 1970-01-01. -/
def civilFromDays (z : Nat) : Nat × Nat × Nat :=
  let z' := z + 719468
  let era := z' / 146097
  let doe := z' % 146097
  let yoe := (doe - doe / 1460 + doe / 36524 - doe / 146096) / 365
  let y := yoe + era * 400
  let doy := doe - (365 * yoe + yoe / 4 - yoe / 100)
  let mp := (5 * doy + 2) / 153
  let d := doy - (153 * mp + 2) / 5 + 1
  let m := if mp < 10 then mp + 3 else mp - 9
  (if m ≤ 2 then y + 1 else y, m, d)

/-- `new Date(ms).toISOString()` = `YYYY-MM-DDTHH:mm:ss.sssZ`. -/
def toISOString (ms : Nat) : String :=
  let ymd := civilFromDays (ms / 86400000)
  String.mk (padNat 4 ymd.1 ++ '-' :: padNat 2 ymd.2.1 ++ '-' :: padNat 2 ymd.2.2
    ++ 'T' :: padNat 2 (ms / 3600000 % 24) ++ ':' :: padNat 2 (ms / 60000 % 60)
    ++ ':' :: padNat 2 (ms / 1000 % 60) ++ '.' :: padNat 3 (ms % 1000) ++ ['Z'])

/-! ## Task records

The Task mongoose model itself is not part of the analysed sources (only its
callers are), so its shape is taken from the fields the export service reads
and the enumerations used across the repository: status is one of
pending / in-progress / completed, priority one of low / medium / high,
`description`, `completedAt`, `estimatedTime`, `actualTime` are optional.
`_id` is a Mongo ObjectId, rendered as 24 hex digits. -/

inductive TaskStatus
  | pending
  | inProgress
  | completed
deriving DecidableEq, Repr

def taskStatusStr : TaskStatus → String
  | .pending => "pending"
  | .inProgress => "in-progress"
  | .completed => "completed"

inductive TaskPriority
  | low
  | medium
  | high
deriving DecidableEq, Repr

def taskPriorityStr : TaskPriority → String
  | .low => "low"
  | .medium => "medium"
  | .high => "high"

structure Task where
  oid : Nat
  title : String
  description : Option String
  status : TaskStatus
  priority : TaskPriority
  createdAt : Nat
  updatedAt : Nat
  completedAt : Option Nat
  estimatedTime : Option Nat
  actualTime : Option Nat
deriving DecidableEq, Repr

/-- 24 lower-case hex digits of an ObjectId. -/
def hex24 (n : Nat) : String :=
  String.mk ((List.range 24).reverse.map fun i => hexDigitChar (n / 16 ^ i % 16))

/-! ## CSV generation (`ExportService.generateCSV`, `escapeCsvField`) -/

/-- `escapeCsvField`: each double quote is doubled (`field.replace(/"/g, '""')`);
the non-string guard of the source never fires here because every argument it
receives in `generateCSV` is a string. -/
def escapeCsvField (s : String) : String :=
  String.mk (s.data.flatMap fun c => if c = '"' then ['"', '"'] else [c])

/-- JS `x || ''` on an optional numeric field: absent and `0` are falsy. -/
def optNatField : Option Nat → String
  | none => ""
  | some 0 => ""
  | some n => natStr n

def csvQuoted (s : String) : String := "\"" ++ s ++ "\""

/-- One CSV data row (the `row.join(',') + '\n'` of the batch loop). -/
def csvRow (t : Task) : String :=
  String.intercalate ","
    [csvQuoted (hex24 t.oid),
     csvQuoted (escapeCsvField t.title),
     csvQuoted (escapeCsvField (t.description.getD "")),
     csvQuoted (taskStatusStr t.status),
     csvQuoted (taskPriorityStr t.priority),
     csvQuoted (toISOString t.createdAt),
     csvQuoted (toISOString t.updatedAt),
     csvQuoted (match t.completedAt with | some d => toISOString d | none => ""),
     csvQuoted (optNatField t.estimatedTime),
     csvQuoted (optNatField t.actualTime)] ++ "\n"

def csvHeaders : List String :=
  ["ID", "Title", "Description", "Status", "Priority", "Created At",
   "Updated At", "Completed At", "Estimated Time (minutes)",
   "Actual Time (minutes)"]

/-- The full file content `generateCSV` writes: the header line, then the
rows, emitted in batches of 1000 exactly as the source's batch loop does. -/
def generateCSV (tasks : List Task) : String :=
  String.intercalate "," csvHeaders ++ "\n" ++
    String.join ((chunksOfSucc 999 tasks).map fun batch =>
      String.join (batch.map csvRow))

/-! ## JSON generation (`ExportService.generateJSON`)

The generator writes `{`, a `metadata` object rendered by
`JSON.stringify(·, null, 2)` re-indented by replacing each newline with
newline + 2 spaces, a `tasks` array with one `JSON.stringify(task, null, 2)`
per element re-indented by newline + 4 spaces, a comma after every element
except the last, and the closing brackets. -/

/-- JSON values (the fragment the generator emits: strings, non-negative
integers, arrays, flat objects). -/
inductive JVal where
  | str (s : String)
  | num (n : Nat)
  | arr (elems : List JVal)
  | obj (fields : List (String × JVal))

/-- Rendering of a primitive value by `JSON.stringify` (the task and
metadata objects are flat, so only strings and numbers occur as field
values). -/
def renderPrim : JVal → String
  | .str s => jsonQuote s
  | .num n => natStr n
  | _ => ""

/-- `s.replace(/\n/g, '\n' + ind)` at character-list level. -/
def replaceNLData (ind : List Char) (cs : List Char) : List Char :=
  cs.flatMap fun c => if c = '\n' then '\n' :: ind else [c]

def replaceNL (ind : String) (s : String) : String :=
  String.mk (replaceNLData ind.data s.data)

/-- `JSON.stringify(obj, null, 2)` for a flat object of primitives. -/
def stringifyFlat2 (entries : List (String × String)) : String :=
  match entries with
  | [] => "\x7b\x7d"
  | _ => "\x7b\n" ++ String.intercalate ",\n"
      (entries.map fun kv => "  " ++ jsonQuote kv.1 ++ ": " ++ kv.2) ++ "\n\x7d"

/-- The fields `JSON.stringify` sees on a task document: fields holding
`undefined` (absent optionals) are omitted, `Date` values render through
`toJSON()` as ISO strings, the ObjectId renders through its `toJSON()` as
its hex string. -/
def taskFields (t : Task) : List (String × JVal) :=
  [("id", .str (hex24 t.oid)), ("title", .str t.title)]
  ++ (match t.description with | some d => [("description", .str d)] | none => [])
  ++ [("status", .str (taskStatusStr t.status)),
      ("priority", .str (taskPriorityStr t.priority)),
      ("createdAt", .str (toISOString t.createdAt)),
      ("updatedAt", .str (toISOString t.updatedAt))]
  ++ (match t.completedAt with | some d => [("completedAt", .str (toISOString d))] | none => [])
  ++ (match t.estimatedTime with | some n => [("estimatedTime", .num n)] | none => [])
  ++ (match t.actualTime with | some n => [("actualTime", .num n)] | none => [])

/-- `JSON.stringify(taskData, null, 2).replace(/\n/g, '\n    ')`. -/
def taskJson (t : Task) : String :=
  replaceNL "    " (stringifyFlat2 ((taskFields t).map fun kv => (kv.1, renderPrim kv.2)))

def metaFields (now n : Nat) : List (String × JVal) :=
  [("exportedAt", .str (toISOString now)), ("totalRecords", .num n),
   ("format", .str "json")]

/-- `JSON.stringify(metadata, null, 2)`. -/
def metadataJson (now n : Nat) : String :=
  stringifyFlat2 ((metaFields now n).map fun kv => (kv.1, renderPrim kv.2))

/-- The task lines of the array.  The source iterates the list in batches of
1000 writing `    ${taskJson}${isLast ? '' : ','}\n`, where
`isLast = (i + j) === tasks.length - 1`; over the in-order batches this is
exactly "the element is the last one", and the consecutive writes
concatenate. -/
def tasksBody : List Task → String
  | [] => ""
  | [t] => "    " ++ taskJson t ++ "\n"
  | t :: t2 :: rest => "    " ++ taskJson t ++ ",\n" ++ tasksBody (t2 :: rest)

/-- The full file content `generateJSON` writes.  `now` models the clock
read for `exportedAt`. -/
def generateJSON (now : Nat) (tasks : List Task) : String :=
  "\x7b\n" ++ "  \"metadata\": " ++ replaceNL "  " (metadataJson now tasks.length) ++ ",\n"
    ++ "  \"tasks\": [\n" ++ tasksBody tasks ++ "  ]\n" ++ "\x7d\n"

/-- The JSON value the generated document denotes. -/
def taskVal (t : Task) : JVal := .obj (taskFields t)

def exportDoc (now : Nat) (tasks : List Task) : JVal :=
  .obj [("metadata", .obj (metaFields now tasks.length)),
        ("tasks", .arr (tasks.map taskVal))]

/-- Field lookup in a JSON object value. -/
def lookupField (k : String) : JVal → Option JVal
  | .obj fs => (fs.find? fun kv => kv.1 = k).map fun kv => kv.2
  | _ => none

/-! ## The JSON grammar (json.org), as derivability relations

`JStrBody s r` — `r` is a legal string-literal body denoting `s`;
`JValR v r` — `r` is a legal `value` production denoting `v`;
`JElemR` / `JElemsR` / `JMemberR` / `JMembersR` — the `element(s)` /
`member(s)` productions (whitespace-wrapped).  A string derivable here is
syntactically valid JSON.  Only the productions the generator can emit are
included (no booleans, null, fractions or signs), so derivability is sound
for validity. -/

def isWsChar (c : Char) : Bool := c = ' ' || c = '\n' || c = '\t' || c = '\r'

def IsWs (cs : List Char) : Prop := ∀ c ∈ cs, isWsChar c = true

instance (cs : List Char) : Decidable (IsWs cs) := by unfold IsWs; infer_instance

def isHexChar (c : Char) : Bool :=
  c.isDigit || (97 ≤ c.toNat && c.toNat ≤ 102) || (65 ≤ c.toNat && c.toNat ≤ 70)

def hexCharVal (c : Char) : Nat :=
  if c.isDigit then c.toNat - 48 else if 97 ≤ c.toNat then c.toNat - 87 else c.toNat - 55

/-- Value of a run of decimal digit characters. -/
def digitsVal (ds : List Char) : Nat := ds.foldl (fun a c => 10 * a + (c.toNat - 48)) 0

inductive JStrBody : List Char → List Char → Prop
  | nil : JStrBody [] []
  | raw (c : Char) (s r : List Char) : c ≠ '"' → c ≠ '\\' → 32 ≤ c.toNat →
      JStrBody s r → JStrBody (c :: s) (c :: r)
  | escQuote (s r : List Char) : JStrBody s r → JStrBody ('"' :: s) ('\\' :: '"' :: r)
  | escBack (s r : List Char) : JStrBody s r → JStrBody ('\\' :: s) ('\\' :: '\\' :: r)
  | escSlash (s r : List Char) : JStrBody s r → JStrBody ('/' :: s) ('\\' :: '/' :: r)
  | escB (s r : List Char) : JStrBody s r → JStrBody ('\x08' :: s) ('\\' :: 'b' :: r)
  | escT (s r : List Char) : JStrBody s r → JStrBody ('\x09' :: s) ('\\' :: 't' :: r)
  | escN (s r : List Char) : JStrBody s r → JStrBody ('\x0a' :: s) ('\\' :: 'n' :: r)
  | escF (s r : List Char) : JStrBody s r → JStrBody ('\x0c' :: s) ('\\' :: 'f' :: r)
  | escR (s r : List Char) : JStrBody s r → JStrBody ('\x0d' :: s) ('\\' :: 'r' :: r)
  | escU (c : Char) (h1 h2 h3 h4 : Char) (s r : List Char) :
      isHexChar h1 = true → isHexChar h2 = true → isHexChar h3 = true → isHexChar h4 = true →
      c.toNat = 4096 * hexCharVal h1 + 256 * hexCharVal h2 + 16 * hexCharVal h3 + hexCharVal h4 →
      c.toNat < 55296 →
      JStrBody s r → JStrBody (c :: s) ('\\' :: 'u' :: h1 :: h2 :: h3 :: h4 :: r)

mutual

inductive JValR : JVal → List Char → Prop
  | str (s : String) (b : List Char) : JStrBody s.data b →
      JValR (.str s) ('"' :: b ++ ['"'])
  | num (n : Nat) (ds : List Char) : ds ≠ [] → (∀ c ∈ ds, c.isDigit) →
      (∀ d ds', ds = d :: ds' → ds' ≠ [] → d ≠ '0') →
      digitsVal ds = n → JValR (.num n) ds
  | arrEmpty (w : List Char) : IsWs w → JValR (.arr []) ('[' :: w ++ [']'])
  | arr (vs : List JVal) (cs : List Char) : JElemsR vs cs →
      JValR (.arr vs) ('[' :: cs ++ [']'])
  | objEmpty (w : List Char) : IsWs w → JValR (.obj []) ('{' :: w ++ ['}'])
  | obj (fs : List (String × JVal)) (cs : List Char) : JMembersR fs cs →
      JValR (.obj fs) ('{' :: cs ++ ['}'])

inductive JElemR : JVal → List Char → Prop
  | mk (v : JVal) (w1 cs w2 : List Char) : IsWs w1 → JValR v cs → IsWs w2 →
      JElemR v (w1 ++ cs ++ w2)

inductive JElemsR : List JVal → List Char → Prop
  | single (v : JVal) (cs : List Char) : JElemR v cs → JElemsR [v] cs
  | cons (v : JVal) (vs : List JVal) (cs cs' : List Char) : JElemR v cs →
      JElemsR vs cs' → JElemsR (v :: vs) (cs ++ ',' :: cs')

inductive JMemberR : String × JVal → List Char → Prop
  | mk (k : String) (v : JVal) (w1 kb w2 cs : List Char) : IsWs w1 →
      JStrBody k.data kb → IsWs w2 → JElemR v cs →
      JMemberR (k, v) (w1 ++ '"' :: kb ++ '"' :: w2 ++ ':' :: cs)

inductive JMembersR : List (String × JVal) → List Char → Prop
  | single (kv : String × JVal) (cs : List Char) : JMemberR kv cs → JMembersR [kv] cs
  | cons (kv : String × JVal) (kvs : List (String × JVal)) (cs cs' : List Char) :
      JMemberR kv cs → JMembersR kvs cs' → JMembersR (kv :: kvs) (cs ++ ',' :: cs')

end

/-- A whole document: the top-level `json := element` production. -/
def ValidJson (v : JVal) (s : String) : Prop := JElemR v s.data

/-! ## The filter query builder (`ExportService.buildQueryFromFilters`) -/

/-- Model of the platform `new Date(string)` on the subset of inputs the
dashboard produces: an ISO `YYYY-MM-DD` day string parses to its epoch
millisecond value, anything else is an Invalid Date (`none`).  The model
covers dates from 1970 on. -/
def daysFromCivil (y m d : Nat) : Nat :=
  let y' := if m ≤ 2 then y - 1 else y
  let era := y' / 400
  let yoe := y' % 400
  let doy := (153 * (if 2 < m then m - 3 else m + 9) + 2) / 5 + d - 1
  let doe := yoe * 365 + yoe / 4 - yoe / 100 + doy
  era * 146097 + doe - 719468

def jsParseDate (s : String) : Option Nat :=
  match s.data with
  | [y1, y2, y3, y4, '-', m1, m2, '-', d1, d2] =>
    if (y1.isDigit && y2.isDigit && y3.isDigit && y4.isDigit &&
        m1.isDigit && m2.isDigit && d1.isDigit && d2.isDigit) then
      some (86400000 * daysFromCivil (digitsVal [y1, y2, y3, y4])
        (digitsVal [m1, m2]) (digitsVal [d1, d2]))
    else none
  | _ => none

/-- A `createdAt`/`completedAt` range condition of the Mongo query.  The
outer `Option` is "is this bound present", the inner one is the parsed
date: `some ms` a real date, `none` an Invalid Date bound (what
`new Date('garbage')` puts into the query). -/
structure DateCond where
  gte : Option (Option Nat) := none
  lte : Option (Option Nat) := none
deriving DecidableEq, Repr

/-- The Mongo query object built from the filters.  `search` holds the
regex text of the case-insensitive title/description `$or` clause. -/
structure Query where
  status : Option String := none
  priority : Option String := none
  createdAt : Option DateCond := none
  search : Option String := none
  completedAt : Option DateCond := none
deriving DecidableEq, Repr

def lookupFilter (k : String) (fs : Filters) : Option String :=
  (fs.find? fun kv => kv.1 = k).map fun kv => kv.2

/-- JS truthiness of an optional string field: absent and `''` are falsy. -/
def truthy : Option String → Bool
  | none => false
  | some s => !(s == "")

def buildQueryFromFilters (filters : Filters) : Query :=
  let fStatus := lookupFilter "status" filters
  let fPriority := lookupFilter "priority" filters
  let fDateFrom := lookupFilter "dateFrom" filters
  let fDateTo := lookupFilter "dateTo" filters
  let fSearch := lookupFilter "search" filters
  let fCFrom := lookupFilter "completedDateFrom" filters
  let fCTo := lookupFilter "completedDateTo" filters
  { status := if truthy fStatus && fStatus != some "all" then fStatus else none
    priority := if truthy fPriority && fPriority != some "all" then fPriority else none
    createdAt :=
      if truthy fDateFrom || truthy fDateTo then
        some { gte := if truthy fDateFrom then some (jsParseDate (fDateFrom.getD "")) else none
               lte := if truthy fDateTo then some (jsParseDate (fDateTo.getD "")) else none }
      else none
    search := if truthy fSearch then fSearch else none
    completedAt :=
      if truthy fCFrom || truthy fCTo then
        some { gte := if truthy fCFrom then some (jsParseDate (fCFrom.getD "")) else none
               lte := if truthy fCTo then some (jsParseDate (fCTo.getD "")) else none }
      else none }

/-! ## The Export job store (`Export` model, `models/Export.js`) -/

inductive Fmt
  | csv
  | json
deriving DecidableEq, Repr

def fmtStr : Fmt → String
  | .csv => "csv"
  | .json => "json"

inductive ExpStatus
  | pending
  | processing
  | completed
  | failed
deriving DecidableEq, Repr

structure ExportRec where
  eid : Nat
  format : Fmt
  filters : Filters
  recordCount : Nat := 0
  status : ExpStatus := .pending
  filePath : Option String := none
  fileName : Option String := none
  createdAt : Nat
  completedAt : Option Nat := none
  error : Option String := none
deriving DecidableEq, Repr

abbrev Store := List ExportRec

def findById (id : Nat) (st : Store) : Option ExportRec := st.find? fun r => r.eid = id

def upsert : Store → ExportRec → Store
  | [], r => [r]
  | x :: xs, r => if x.eid = r.eid then r :: xs else x :: upsert xs r

/-- Model of `document.save()` together with the Export schema's
`pre('save')` hook: when the status is being modified and is now
completed/failed and `completedAt` is not yet set, the hook stamps
`completedAt := now`; the resulting document is written to the store
atomically. -/
def saveRec (now : Nat) (st : Store) (r : ExportRec) : Store × ExportRec :=
  let statusModified : Bool := match findById r.eid st with
    | none => true
    | some p => p.status != r.status
  let r' := if statusModified && (r.status == .completed || r.status == .failed)
      && r.completedAt == none
    then { r with completedAt := some now } else r
  (upsert st r', r')

/-! ## Cache, filesystem and system state -/

/-- What `processExport` caches on completion (the JSON round-trip through
redis is the identity on this record). -/
structure CacheEntry where
  exportId : Nat
  fileName : String
  recordCount : Nat
  createdAt : Nat
deriving DecidableEq, Repr

abbrev Cache := List (String × CacheEntry)

def cacheGet (k : String) (c : Cache) : Option CacheEntry :=
  (c.find? fun kv => kv.1 = k).map fun kv => kv.2

def cachePut (k : String) (e : CacheEntry) : Cache → Cache
  | [] => [(k, e)]
  | kv :: rest => if kv.1 = k then (k, e) :: rest else kv :: cachePut k e rest

/-- The mutable world of the service: the Export collection, the `exports/`
directory (path ↦ content) and the redis cache (a present entry is one whose
TTL has not yet expired). -/
structure Sys where
  store : Store
  files : List (String × String)
  cache : Cache

/-- The behaviour of the collaborators during one processing run:
the task query (may fail), the artifact write (mkdir/open/write/close, may
fail), `redisClient.setex` (may fail) and whether `redisClient.get`
succeeds. -/
structure Env where
  findTasks : Query → Except String (List Task)
  writeOk : Except String Unit
  setexResult : Except String Unit
  getOk : Bool

/-! ## The orchestrator (`ExportService.createExport` / `processExport`) -/

/-- `generateFileName`: ISO timestamp with `:`/`.` replaced by `-`, plus a
`-filtered` marker when the filter object is non-empty. -/
def generateFileName (format : Fmt) (filters : Filters) (now : Nat) : String :=
  "tasks-export-" ++
    String.mk ((toISOString now).data.map fun c => if c = ':' ∨ c = '.' then '-' else c) ++
    (if 0 < filters.length then "-filtered" else "") ++ "." ++ fmtStr format

/-- `createExport`: build and save a new pending Export document; the
asynchronous `processExport` is sequenced after it by the caller.  `newId`
models the ObjectId Mongo assigns. -/
def createExport (now newId : Nat) (format : Fmt) (filters : Filters) (st : Store) :
    Store × ExportRec :=
  saveRec now st { eid := newId, format := format, filters := filters, createdAt := now }

/-- The catch block of `processExport`: re-read the job from the store and
mark it failed with the error message. -/
def processFail (now : Nat) (msg : String) (exportId : Nat) (s : Sys) (trace : List Store) :
    Sys × List Store :=
  match findById exportId s.store with
  | none => (s, trace)
  | some job =>
    let (st', _) := saveRec now s.store { job with status := .failed, error := some msg }
    ({ s with store := st' }, trace ++ [st'])

/-- `processExport`: drives a job to `completed`, or to `failed` through the
catch block.  Returns the final system state together with the store states
after each save — the externally observable states.  All clock reads of the
run are modelled by `now`.  A failing artifact write leaves no file behind
in the model (a partial file is never referenced by any record either way). -/
def processExport (env : Env) (now : Nat) (exportId : Nat) (s : Sys) : Sys × List Store :=
  match findById exportId s.store with
  | none => (s, [])
  | some job =>
    let (st1, job1) := saveRec now s.store { job with status := .processing }
    let query := buildQueryFromFilters job1.filters
    match env.findTasks query with
    | .error msg => processFail now msg exportId { s with store := st1 } [st1]
    | .ok tasks =>
      let job2 := { job1 with recordCount := tasks.length }
      let fileName := generateFileName job2.format job2.filters now
      let filePath := "exports/" ++ fileName
      match env.writeOk with
      | .error msg => processFail now msg exportId { s with store := st1 } [st1]
      | .ok _ =>
        let content := match job2.format with
          | .csv => generateCSV tasks
          | .json => generateJSON now tasks
        let files1 := (filePath, content) :: s.files
        let (st2, job3) := saveRec now st1
          { job2 with status := .completed, filePath := some filePath, fileName := some fileName }
        let cacheKey := generateCacheKey job3.filters (fmtStr job3.format)
        let entry : CacheEntry :=
          { exportId := job3.eid, fileName := fileName,
            recordCount := job3.recordCount, createdAt := job3.createdAt }
        match env.setexResult with
        | .ok _ =>
          ({ store := st2, files := files1, cache := cachePut cacheKey entry s.cache }, [st1, st2])
        | .error msg =>
          processFail now msg exportId { store := st2, files := files1, cache := s.cache } [st1, st2]

/-- `getCachedExport`: every cache-layer error is swallowed into a miss; a
hit is returned only when the referenced job still exists and is completed. -/
def getCachedExport (env : Env) (filters : Filters) (format : String) (s : Sys) :
    Option ExportRec :=
  if env.getOk = false then none
  else match cacheGet (generateCacheKey filters format) s.cache with
    | none => none
    | some entry =>
      match findById entry.exportId s.store with
      | none => none
      | some job => if job.status = .completed then some job else none

/-- `getExportFile`: the download lookup; artifact presence is checked
against the filesystem (`fs.access`) at call time. -/
structure FileInfo where
  filePath : String
  fileName : Option String
  format : Fmt
  recordCount : Nat
deriving DecidableEq, Repr

def getExportFile (s : Sys) (exportId : Nat) : Except String FileInfo :=
  match findById exportId s.store with
  | none => .error "Export not found"
  | some job =>
    if job.status ≠ .completed then .error "Export not completed"
    else match job.filePath with
      | none => .error "Export file not found"
      | some p =>
        if (s.files.find? fun f => f.1 = p).isSome then
          .ok { filePath := p, fileName := job.fileName, format := job.format,
                recordCount := job.recordCount }
        else .error "Export file no longer available"

/-! ## The `POST /exports` route (`routes/api.js`) -/

inductive PostResp
  | invalidFormat
  | cacheHit (job : ExportRec)
  | created (job : ExportRec)

/-- `POST /exports`: format validation, cache consultation, then creation
plus asynchronous processing.  The route's response is the first component;
the processing that the route fires off is sequenced after it.  The trace
lists every store state made observable. -/
def postExports (env : Env) (now newId : Nat) (format : String) (filters : Filters) (s : Sys) :
    PostResp × Sys × List Store :=
  if format ≠ "csv" ∧ format ≠ "json" then (.invalidFormat, s, [])
  else match getCachedExport env filters format s with
    | some job => (.cacheHit job, s, [])
    | none =>
      let fmt := if format = "csv" then Fmt.csv else Fmt.json
      let (st1, job) := createExport now newId fmt filters s.store
      let (s', trace) := processExport env now newId { s with store := st1 }
      (.created job, s', st1 :: trace)

/-! ## The retention sweeper (`ExportCleanupJob.run`) -/

structure CleanupResults where
  exportRecordsDeleted : Nat := 0
  filesDeleted : Nat := 0
  spaceSaved : Nat := 0
  errors : List String := []
deriving DecidableEq, Repr

/-- The selection predicate of the sweep:
`createdAt < cutoff` and terminal status. -/
def isOldTerminal (cutoff : Nat) (r : ExportRec) : Bool :=
  r.createdAt < cutoff && (r.status = .completed || r.status = .failed)

/-- One iteration of the cleanup loop: stat + unlink of the backing file (a
missing file is ENOENT, tolerated silently), then `findByIdAndDelete`. -/
def cleanupStep (dryRun : Bool)
    (acc : Store × List (String × String) × CleanupResults) (r : ExportRec) :
    Store × List (String × String) × CleanupResults :=
  let (st, files, res) := acc
  let (files1, res1) := match r.filePath with
    | none => (files, res)
    | some p =>
      match files.find? fun (f : String × String) => f.1 = p with
      | some f =>
        ((if dryRun then files else files.filter fun g => g.1 ≠ p),
         { res with spaceSaved := res.spaceSaved + f.2.length,
                    filesDeleted := res.filesDeleted + 1 })
      | none => (files, res)
  let st1 := if dryRun then st else st.filter fun x => x.eid ≠ r.eid
  (st1, files1, { res1 with exportRecordsDeleted := res1.exportRecordsDeleted + 1 })

/-- `ExportCleanupJob.run`.  The cutoff is `now` minus `retentionDays`
calendar days (`setDate`), which in this UTC millisecond model is
`retentionDays * 86400000`.  The empty-directory cleanup touches neither
records nor export files and is not modelled. -/
def cleanupRun (retentionDays : Nat) (dryRun : Bool) (now : Nat)
    (st : Store) (files : List (String × String)) :
    Store × List (String × String) × CleanupResults :=
  let cutoff := now - retentionDays * 86400000
  let old := st.filter (isOldTerminal cutoff)
  old.foldl (cleanupStep dryRun) (st, files, {})

/-! ## Specification-side definitions used by the theorems -/

/-- The ten decimal digit characters. -/
def digits10 : List Char := ['0', '1', '2', '3', '4', '5', '6', '7', '8', '9']

/-- The characters an ISO timestamp consists of. -/
def isoAllowed : List Char := digits10 ++ ['-', ':', '.', 'T', 'Z']

/-- The characters a lower-case hex rendering consists of. -/
def hexChars : List Char := digits10 ++ ['a', 'b', 'c', 'd', 'e', 'f']

/-- The spec's wording of CSV quote escaping, written independently of the
source: each double quote becomes two double quotes, every other character
is passed through unchanged ("no other escaping is applied"). -/
def doubledSpec : List Char → List Char
  | [] => []
  | c :: cs => if c = '"' then '"' :: '"' :: doubledSpec cs else c :: doubledSpec cs

/-- The pending record `createExport` builds. -/
def pendRec (now newId : Nat) (fmt : Fmt) (filters : Filters) : ExportRec :=
  { eid := newId, format := fmt, filters := filters, createdAt := now }

/-- A record as saved by the processing transition. -/
def procRec (j : ExportRec) : ExportRec := { j with status := .processing }

/-- A record as saved by the failure transition (for a first failure the
pre-save hook stamps `completedAt`). -/
def failRec (now : Nat) (msg : String) (j : ExportRec) : ExportRec :=
  { j with status := .failed, completedAt := some now, error := some msg }

/-- A record as saved by the completion transition. -/
def doneRec (now : Nat) (n : Nat) (fp fn : String) (j : ExportRec) : ExportRec :=
  { j with recordCount := n, status := .completed, filePath := some fp,
           fileName := some fn, completedAt := some now }

/-- A record as saved by a failure occurring after completion (the hook
leaves the existing `completedAt` untouched). -/
def failRec2 (msg : String) (j : ExportRec) : ExportRec :=
  { j with status := .failed, error := some msg }

/-- An environment in which every collaborator succeeds (and returns no
tasks). -/
def okEnv : Env :=
  { findTasks := fun _ => .ok [], writeOk := .ok (), setexResult := .ok (), getOk := true }

/-- An environment whose record-store query fails. -/
def failEnv : Env :=
  { findTasks := fun _ => .error "db down", writeOk := .ok (), setexResult := .ok (),
    getOk := true }

def emptySys : Sys := { store := [], files := [], cache := [] }

/-- The characters of one `"key": value` item of a 2-space-indented flat
`JSON.stringify` object. -/
def itemData (kv : String × String) : List Char :=
  ' ' :: ' ' :: (jsonQuote kv.1).data ++ ':' :: ' ' :: kv.2.data

/-- The characters between the braces of a re-indented flat object (after
`replace(/\n/g, '\n' + ind)`), exclusive of the surrounding whitespace. -/
def bodyData (ind : List Char) : List (String × String) → List Char
  | [] => []
  | e :: rest => itemData e ++ rest.flatMap fun kv => ',' :: '\n' :: ind ++ itemData kv

/-- The JSON values the flat-object stringifier can receive as field
values. -/
def PrimOnly : JVal → Prop
  | .str _ => True
  | .num _ => True
  | _ => False

/-- The per-record invariant of claim C3 on externally observable Export
records: completed implies the file reference is set, failed implies the
error is set. -/
def recInv (r : ExportRec) : Prop :=
  (r.status = .completed → r.filePath ≠ none ∧ r.fileName ≠ none)
  ∧ (r.status = .failed → r.error ≠ none)

/-- `completedAt` is never reset between two (consecutive) observable store
states: once it holds a value for a job, the next state holds the same
value for that job. -/
def PreservesCompletedAt (st st' : Store) : Prop :=
  ∀ id t r, findById id st = some r → r.completedAt = some t →
    ∃ r', findById id st' = some r' ∧ r'.completedAt = some t

/-! # Theorems -/

theorem flatten_chunksAux (fuel m : Nat) (l : List α) (hl : l.length ≤ fuel) :
    (chunksAux fuel m l).flatten = l := by
  induction fuel generalizing l with
  | zero =>
    have : l = [] := List.length_eq_zero.mp (Nat.le_zero.mp hl)
    simp [this, chunksAux]
  | succ n ih =>
    match l with
    | [] => simp [chunksAux]
    | a :: l =>
      rw [chunksAux]
      have h1 : (l.drop m).length ≤ n := by
        simp only [List.length_drop]
        simp at hl; omega
      rw [List.flatten_cons, ih _ h1]
      have h2 : l.drop m = (a :: l).drop (m + 1) := by simp
      rw [h2, List.take_append_drop]

theorem flatten_chunksOfSucc (m : Nat) (l : List α) : (chunksOfSucc m l).flatten = l :=
  flatten_chunksAux l.length m l le_rfl

/-! ## C1 — cache key determinism and format separation -/

theorem md5Bytes_length (msg : List Nat) : (md5Bytes msg).length = 16 := by
  simp [md5Bytes, wordBytesLE]

theorem md5hex_length (s : String) : (md5hex s).length = 32 := by
  have h16 := md5Bytes_length (strBytes s)
  have key : ∀ l : List Nat, ((l.map byteHex).flatten).length = 2 * l.length := by
    intro l
    induction l with
    | nil => simp
    | cons a l ih => simp [byteHex, ih]; omega
  unfold md5hex
  have : (String.mk ((md5Bytes (strBytes s)).map byteHex).flatten).length
      = ((md5Bytes (strBytes s)).map byteHex).flatten.length := rfl
  rw [this, key, h16]

theorem length_generateCacheKey (m : Filters) (f : String) :
    (generateCacheKey m f).length = 40 + f.length := by
  unfold generateCacheKey
  rw [String.length_append, String.length_append, String.length_append, md5hex_length]
  have h1 : "export:".length = 7 := rfl
  have h2 : ":".length = 1 := rfl
  rw [h1, h2]
  omega

/-- The two formats always produce different keys (their lengths differ). -/
theorem cacheKey_format_ne (m : Filters) :
    generateCacheKey m "csv" ≠ generateCacheKey m "json" := by
  intro h
  have hl := congrArg String.length h
  rw [length_generateCacheKey, length_generateCacheKey] at hl
  have h3 : "csv".length = 3 := rfl
  have h4 : "json".length = 4 := rfl
  omega

/-- C1 counterexample: two filter mappings holding the same key-value pairs
(one is a permutation of the other) produce different cache keys for the
same format, because `JSON.stringify` serializes in insertion order and the
md5 digests of the two serializations differ. -/
theorem generateCacheKey_order_sensitive :
    ([("a", "1"), ("b", "2")] : Filters).Perm [("b", "2"), ("a", "1")]
    ∧ generateCacheKey [("a", "1"), ("b", "2")] "csv"
      ≠ generateCacheKey [("b", "2"), ("a", "1")] "csv" := by
  constructor
  · decide
  · have hb : (generateCacheKey [("a", "1"), ("b", "2")] "csv"
        == generateCacheKey [("b", "2"), ("a", "1")] "csv") = false := by
      set_option maxRecDepth 100000 in rfl
    intro h
    rw [h] at hb
    simp at hb

/-- C1 (amended): the Cache Key Generator is deterministic — structurally
equal filter mappings (same pairs in the same insertion order) give equal
keys for every format — and keys always differ between the two formats for
the same mapping. -/
theorem generateCacheKey_deterministic_format_distinct
    (m1 m2 : Filters) (f f1 f2 : String)
    (hm : m1 = m2) (h1 : f1 = "csv" ∨ f1 = "json") (h2 : f2 = "csv" ∨ f2 = "json")
    (hne : f1 ≠ f2) :
    generateCacheKey m1 f = generateCacheKey m2 f
    ∧ generateCacheKey m1 f1 ≠ generateCacheKey m1 f2 := by
  subst hm
  refine ⟨rfl, ?_⟩
  rcases h1 with h1 | h1 <;> rcases h2 with h2 | h2 <;> subst h1 <;> subst h2
  · exact absurd rfl hne
  · exact cacheKey_format_ne m1
  · exact (cacheKey_format_ne m1).symm
  · exact absurd rfl hne

theorem generateCacheKey_deterministic_format_distinct_witness :
    generateCacheKey [("a", "1")] "csv" = generateCacheKey [("a", "1")] "csv"
    ∧ generateCacheKey [("a", "1")] "csv" ≠ generateCacheKey [("a", "1")] "json" :=
  generateCacheKey_deterministic_format_distinct [("a", "1")] [("a", "1")] "csv" "csv" "json"
    rfl (Or.inl rfl) (Or.inr rfl) (by decide)

/-! ## Character-class lemmas for the rendered fields -/

theorem digitChar_mem (d : Nat) (h : d < 10) : digitChar d ∈ digits10 := by
  interval_cases d <;> decide

theorem mem_natCharsAux (fuel n : Nat) (c : Char) (hc : c ∈ natCharsAux fuel n) :
    c ∈ digits10 := by
  induction fuel generalizing n with
  | zero => simp [natCharsAux] at hc
  | succ fuel ih =>
    rw [natCharsAux] at hc
    by_cases h : n < 10
    · simp [h] at hc
      exact hc ▸ digitChar_mem n h
    · simp [h] at hc
      rcases hc with hc | hc
      · exact ih _ hc
      · exact hc ▸ digitChar_mem _ (Nat.mod_lt _ (by omega))

theorem mem_natStr (n : Nat) (c : Char) (hc : c ∈ (natStr n).data) : c ∈ digits10 :=
  mem_natCharsAux _ _ _ hc

theorem mem_padNat (w n : Nat) (c : Char) (hc : c ∈ padNat w n) : c ∈ digits10 := by
  rcases List.mem_append.mp hc with h | h
  · rw [List.eq_of_mem_replicate h]; decide
  · exact mem_natCharsAux _ _ _ h

theorem mem_toISOString (ms : Nat) (c : Char) (hc : c ∈ (toISOString ms).data) :
    c ∈ isoAllowed := by
  have hd : ∀ x, x ∈ digits10 → x ∈ isoAllowed := by
    intro x hx
    exact List.mem_append.mpr (Or.inl hx)
  unfold toISOString at hc
  simp only [List.mem_append, List.mem_cons, List.mem_singleton] at hc
  rcases hc with ((((((h | h) | h) | h) | h) | h) | h) | h
  · exact hd _ (mem_padNat _ _ _ h)
  · rcases h with h | h
    · subst h; decide
    · exact hd _ (mem_padNat _ _ _ h)
  · rcases h with h | h
    · subst h; decide
    · exact hd _ (mem_padNat _ _ _ h)
  · rcases h with h | h
    · subst h; decide
    · exact hd _ (mem_padNat _ _ _ h)
  · rcases h with h | h
    · subst h; decide
    · exact hd _ (mem_padNat _ _ _ h)
  · rcases h with h | h
    · subst h; decide
    · exact hd _ (mem_padNat _ _ _ h)
  · rcases h with h | h
    · subst h; decide
    · exact hd _ (mem_padNat _ _ _ h)
  · rcases h with h | h
    · subst h; decide
    · simp at h

theorem hexDigitChar_mem (d : Nat) (h : d < 16) : hexDigitChar d ∈ hexChars := by
  interval_cases d <;> decide

theorem mem_hex24 (n : Nat) (c : Char) (hc : c ∈ (hex24 n).data) : c ∈ hexChars := by
  unfold hex24 at hc
  have : c ∈ (List.range 24).reverse.map fun i => hexDigitChar (n / 16 ^ i % 16) := hc
  rcases List.mem_map.mp this with ⟨i, _, hi⟩
  exact hi ▸ hexDigitChar_mem _ (Nat.mod_lt _ (by omega))

theorem digits10_safe (c : Char) (h : c ∈ digits10) : c ≠ '\n' ∧ c ≠ '"' := by
  fin_cases h <;> exact ⟨by decide, by decide⟩

theorem isoAllowed_safe (c : Char) (h : c ∈ isoAllowed) : c ≠ '\n' ∧ c ≠ '"' := by
  fin_cases h <;> exact ⟨by decide, by decide⟩

theorem hexChars_safe (c : Char) (h : c ∈ hexChars) : c ≠ '\n' ∧ c ≠ '"' := by
  fin_cases h <;> exact ⟨by decide, by decide⟩

/-! ## C5 — CSV escaping and line counting -/

theorem countChar_append (c : Char) (a b : String) :
    countChar c (a ++ b) = countChar c a + countChar c b := by
  unfold countChar
  rw [String.data_append, List.count_append]

theorem countChar_eq_zero (c : Char) (s : String) (h : c ∉ s.data) : countChar c s = 0 :=
  List.count_eq_zero.mpr h

theorem doubledSpec_eq (l : List Char) :
    (l.flatMap fun c => if c = '"' then ['"', '"'] else [c]) = doubledSpec l := by
  induction l with
  | nil => rfl
  | cons c l ih =>
    by_cases h : c = '"' <;> simp [doubledSpec, h, ih]

theorem escapeCsvField_doubledSpec (s : String) :
    (escapeCsvField s).data = doubledSpec s.data := by
  unfold escapeCsvField
  exact doubledSpec_eq s.data

theorem count_quote_doubled (l : List Char) :
    ((l.flatMap fun c => if c = '"' then ['"', '"'] else [c]).count '"') = 2 * l.count '"' := by
  induction l with
  | nil => rfl
  | cons c l ih =>
    by_cases h : c = '"'
    · subst h
      simp [List.count_cons, ih]
      omega
    · simp [h, List.count_cons, ih]

theorem countChar_escapeCsvField (s : String) :
    countChar '"' (escapeCsvField s) = 2 * countChar '"' s := by
  unfold countChar escapeCsvField
  exact count_quote_doubled s.data

theorem nl_not_mem_escape (s : String) (h : '\n' ∉ s.data) :
    '\n' ∉ (escapeCsvField s).data := by
  unfold escapeCsvField
  intro hc
  rcases List.mem_flatMap.mp hc with ⟨c, hcl, hin⟩
  by_cases hq : c = '"'
  · simp [hq] at hin
  · simp [hq] at hin
    exact h (hin ▸ hcl)

theorem data_foldl_append (L : List String) (acc : String) :
    (L.foldl (· ++ ·) acc).data = acc.data ++ (L.map String.data).flatten := by
  induction L generalizing acc with
  | nil => simp
  | cons a L ih => simp [List.foldl_cons, ih, String.data_append]

theorem data_join (L : List String) :
    (String.join L).data = (L.map String.data).flatten := by
  show (L.foldl (· ++ ·) "").data = _
  rw [data_foldl_append]
  rfl

theorem flatten_map_flatten (g : α → List β) (L : List (List α)) :
    (L.map fun b => (b.map g).flatten).flatten = (L.flatten.map g).flatten := by
  induction L with
  | nil => rfl
  | cons a L ih => simp [List.map_append, ih]

/-- The generated CSV file is the header line followed by the data rows (the
batched writes concatenate to the rows in order). -/
theorem generateCSV_data (ts : List Task) :
    (generateCSV ts).data = (String.intercalate "," csvHeaders).data
      ++ '\n' :: (ts.map fun t => (csvRow t).data).flatten := by
  unfold generateCSV
  rw [String.data_append, String.data_append, data_join, List.append_assoc]
  congr 1
  rw [show ("\n").data = ['\n'] from rfl, List.singleton_append]
  congr 1
  have hfun : (String.data ∘ fun b => String.join (List.map csvRow b))
      = fun b => (List.map (fun t => (csvRow t).data) b).flatten := by
    funext b
    show (String.join (b.map csvRow)).data = _
    rw [data_join, List.map_map]
    rfl
  rw [List.map_map, hfun, flatten_map_flatten, flatten_chunksOfSucc]

theorem countChar_csvQuoted (s : String) :
    countChar '\n' (csvQuoted s) = countChar '\n' s := by
  unfold csvQuoted
  rw [countChar_append, countChar_append]
  rw [show countChar '\n' "\"" = 0 from rfl]
  omega

/-- Every data row contributes exactly one newline when the free-text
fields contain none. -/
theorem csvRow_count_nl (t : Task) (h1 : '\n' ∉ t.title.data)
    (h2 : '\n' ∉ (t.description.getD "").data) :
    countChar '\n' (csvRow t) = 1 := by
  unfold csvRow
  simp only [String.intercalate, String.intercalate.go]
  rw [countChar_append]
  have hid : countChar '\n' (csvQuoted (hex24 t.oid)) = 0 := by
    rw [countChar_csvQuoted]
    exact countChar_eq_zero _ _ fun hc => (hexChars_safe _ (mem_hex24 _ _ hc)).1 rfl
  have htitle : countChar '\n' (csvQuoted (escapeCsvField t.title)) = 0 := by
    rw [countChar_csvQuoted]
    exact countChar_eq_zero _ _ (nl_not_mem_escape _ h1)
  have hdesc : countChar '\n' (csvQuoted (escapeCsvField (t.description.getD ""))) = 0 := by
    rw [countChar_csvQuoted]
    exact countChar_eq_zero _ _ (nl_not_mem_escape _ h2)
  have hstatus : countChar '\n' (csvQuoted (taskStatusStr t.status)) = 0 := by
    cases t.status <;> decide
  have hprio : countChar '\n' (csvQuoted (taskPriorityStr t.priority)) = 0 := by
    cases t.priority <;> decide
  have hiso : ∀ ms, countChar '\n' (csvQuoted (toISOString ms)) = 0 := by
    intro ms
    rw [countChar_csvQuoted]
    exact countChar_eq_zero _ _ fun hc => (isoAllowed_safe _ (mem_toISOString _ _ hc)).1 rfl
  have hcompl : countChar '\n'
      (csvQuoted (match t.completedAt with | some d => toISOString d | none => "")) = 0 := by
    cases t.completedAt with
    | none => decide
    | some d => exact hiso d
  have hopt : ∀ o : Option Nat, countChar '\n' (csvQuoted (optNatField o)) = 0 := by
    intro o
    rw [countChar_csvQuoted]
    match o with
    | none => decide
    | some 0 => decide
    | some (n + 1) =>
      exact countChar_eq_zero _ _ fun hc => (digits10_safe _ (mem_natStr _ _ hc)).1 rfl
  repeat rw [countChar_append]
  rw [hid, htitle, hdesc, hstatus, hprio, hiso, hiso, hcompl, hopt, hopt]
  decide

theorem flatten_rows_count (ts : List Task)
    (hnl : ∀ t ∈ ts, '\n' ∉ t.title.data ∧ '\n' ∉ (t.description.getD "").data) :
    ((ts.map fun t => (csvRow t).data).flatten).count '\n' = ts.length := by
  induction ts with
  | nil => rfl
  | cons t ts ih =>
    rw [List.map_cons, List.flatten_cons, List.count_append]
    have h := hnl t (List.mem_cons_self t ts)
    have h1 : (csvRow t).data.count '\n' = 1 := csvRow_count_nl t h.1 h.2
    rw [h1, ih fun x hx => hnl x (List.mem_cons_of_mem t hx)]
    simp [Nat.add_comm]

/-- C5 counterexample: for a record whose title embeds a newline character
the CSV output does not have N + 1 lines — the newline passes through
unescaped, so the single record produces three newline-terminated lines
instead of two. -/
theorem generateCSV_lines_counterexample :
    ¬ (countChar '\n' (generateCSV
      [{ oid := 1, title := "a\nb", description := none, status := .pending,
         priority := .low, createdAt := 0, updatedAt := 0, completedAt := none,
         estimatedTime := none, actualTime := none }]) = 1 + 1) := by
  set_option maxRecDepth 100000 in decide

/-- C5 (amended): for every non-empty list of N task records whose title and
description contain no newline character, `generateCSV` produces exactly
N + 1 newline-terminated lines (one fixed header line plus one quoted row
per record); and `escapeCsvField` — applied to the free-text fields — is
exactly "double each double-quote, change nothing else" (so each
double-quote is doubled and no other escaping is applied). -/
theorem generateCSV_lines_and_escaping (ts : List Task) (_hne : ts ≠ [])
    (hnl : ∀ t ∈ ts, '\n' ∉ t.title.data ∧ '\n' ∉ (t.description.getD "").data) :
    countChar '\n' (generateCSV ts) = ts.length + 1
    ∧ (∀ s : String, (escapeCsvField s).data = doubledSpec s.data
        ∧ countChar '"' (escapeCsvField s) = 2 * countChar '"' s) := by
  constructor
  · show (generateCSV ts).data.count '\n' = ts.length + 1
    rw [generateCSV_data, List.count_append, List.count_cons]
    have hh : (String.intercalate "," csvHeaders).data.count '\n' = 0 := by decide
    rw [hh, flatten_rows_count ts hnl]
    simp
  · intro s
    exact ⟨escapeCsvField_doubledSpec s, countChar_escapeCsvField s⟩

theorem generateCSV_lines_and_escaping_witness :
    (countChar '\n' (generateCSV
      [{ oid := 1, title := "a\"b", description := some "d", status := .completed,
         priority := .high, createdAt := 0, updatedAt := 0, completedAt := some 5,
         estimatedTime := some 3, actualTime := some 4 }]) = 1 + 1
      ∧ ∀ s : String, (escapeCsvField s).data = doubledSpec s.data
          ∧ countChar '"' (escapeCsvField s) = 2 * countChar '"' s) := by
  have h := generateCSV_lines_and_escaping
    [{ oid := 1, title := "a\"b", description := some "d", status := .completed,
       priority := .high, createdAt := 0, updatedAt := 0, completedAt := some 5,
       estimatedTime := some 3, actualTime := some 4 }]
    (by decide) (by decide)
  simpa using h

/-! ## C7 — the retention sweep deletes exactly the old terminal jobs -/

theorem cleanupStep_store (r : ExportRec) (S : Store) (F : List (String × String))
    (res : CleanupResults) :
    (cleanupStep false (S, F, res) r).1 = S.filter fun x => x.eid ≠ r.eid := by
  unfold cleanupStep
  cases hf : r.filePath with
  | none => rfl
  | some p => cases F.find? fun (f : String × String) => f.1 = p <;> rfl

theorem cleanupStep_files (r : ExportRec) (S : Store) (F : List (String × String))
    (res : CleanupResults) :
    (cleanupStep false (S, F, res) r).2.1 = F.filter fun f => !(r.filePath == some f.1) := by
  cases hf : r.filePath with
  | none =>
    have h1 : (cleanupStep false (S, F, res) r).2.1 = F := by
      simp [cleanupStep, hf]
    rw [h1]
    have : ∀ f ∈ F, (!((none : Option String) == some f.1)) = true := fun f _ => rfl
    exact (List.filter_eq_self.mpr this).symm
  | some p =>
    cases hfind : F.find? fun (f : String × String) => f.1 = p with
    | some f0 =>
      have h1 : (cleanupStep false (S, F, res) r).2.1 = F.filter fun g => g.1 ≠ p := by
        simp [cleanupStep, hf, hfind]
      rw [h1]
      apply List.filter_congr
      intro f _
      rw [Bool.eq_iff_iff]
      simp only [decide_eq_true_eq, Bool.not_eq_true', beq_eq_false_iff_ne, ne_eq,
        Option.some.injEq]
      exact ⟨fun h he => h he.symm, fun h he => h he.symm⟩
    | none =>
      have h1 : (cleanupStep false (S, F, res) r).2.1 = F := by
        simp [cleanupStep, hf, hfind]
      rw [h1]
      have hnot := List.find?_eq_none.mp hfind
      have : ∀ f ∈ F, (!((some p : Option String) == some f.1)) = true := by
        intro f hfF
        have h2 := hnot f hfF
        simp only [decide_eq_true_eq] at h2
        simp only [Bool.not_eq_true', beq_eq_false_iff_ne, ne_eq, Option.some.injEq]
        exact fun he => h2 he.symm
      exact (List.filter_eq_self.mpr this).symm

theorem cleanupStep_errors (dr : Bool) (r : ExportRec) (S : Store)
    (F : List (String × String)) (res : CleanupResults) :
    (cleanupStep dr (S, F, res) r).2.2.errors = res.errors := by
  cases hf : r.filePath with
  | none => simp [cleanupStep, hf]
  | some p =>
    cases hfind : F.find? fun (f : String × String) => f.1 = p with
    | some f0 => simp [cleanupStep, hf, hfind]
    | none => simp [cleanupStep, hf, hfind]

theorem cleanup_fold_store (rs : List ExportRec) :
    ∀ (S : Store) (F : List (String × String)) (res : CleanupResults),
    (rs.foldl (cleanupStep false) (S, F, res)).1
      = S.filter fun x => rs.all fun r => x.eid ≠ r.eid := by
  induction rs with
  | nil =>
    intro S F res
    simp
  | cons r rs ih =>
    intro S F res
    rw [List.foldl_cons]
    have heta : cleanupStep false (S, F, res) r
        = ((cleanupStep false (S, F, res) r).1,
           (cleanupStep false (S, F, res) r).2.1,
           (cleanupStep false (S, F, res) r).2.2) := rfl
    rw [heta, ih, cleanupStep_store, List.filter_filter]
    apply List.filter_congr
    intro x _
    simp [List.all_cons, Bool.and_comm]

theorem cleanup_fold_files (rs : List ExportRec) :
    ∀ (S : Store) (F : List (String × String)) (res : CleanupResults),
    (rs.foldl (cleanupStep false) (S, F, res)).2.1
      = F.filter fun f => rs.all fun r => !(r.filePath == some f.1) := by
  induction rs with
  | nil =>
    intro S F res
    simp
  | cons r rs ih =>
    intro S F res
    rw [List.foldl_cons]
    have heta : cleanupStep false (S, F, res) r
        = ((cleanupStep false (S, F, res) r).1,
           (cleanupStep false (S, F, res) r).2.1,
           (cleanupStep false (S, F, res) r).2.2) := rfl
    rw [heta, ih, cleanupStep_files, List.filter_filter]
    apply List.filter_congr
    intro x _
    simp [List.all_cons, Bool.and_comm]

theorem cleanup_fold_errors (dr : Bool) (rs : List ExportRec) :
    ∀ (S : Store) (F : List (String × String)) (res : CleanupResults),
    (rs.foldl (cleanupStep dr) (S, F, res)).2.2.errors = res.errors := by
  induction rs with
  | nil =>
    intro S F res
    rfl
  | cons r rs ih =>
    intro S F res
    rw [List.foldl_cons]
    have heta : cleanupStep dr (S, F, res) r
        = ((cleanupStep dr (S, F, res) r).1,
           (cleanupStep dr (S, F, res) r).2.1,
           (cleanupStep dr (S, F, res) r).2.2) := rfl
    rw [heta, ih, cleanupStep_errors]

/-- C7: a (non-dry-run) sweep with retention `d` days deletes exactly the
Export records older than the cutoff in status completed/failed, deletes
exactly the files backing a selected record (an absent file is tolerated:
no error is recorded, the record is still deleted), and never deletes a
pending/processing record, regardless of its age. -/
theorem cleanupRun_exact (d now : Nat) (st : Store) (files : List (String × String))
    (hnodup : (st.map ExportRec.eid).Nodup) :
    (cleanupRun d false now st files).1
      = st.filter (fun r => !(isOldTerminal (now - d * 86400000) r))
    ∧ (cleanupRun d false now st files).2.1
      = files.filter (fun f => !(st.any fun r =>
          isOldTerminal (now - d * 86400000) r && r.filePath == some f.1))
    ∧ (cleanupRun d false now st files).2.2.errors = []
    ∧ ∀ r ∈ st, (r.status = .pending ∨ r.status = .processing) →
        r ∈ (cleanupRun d false now st files).1 := by
  have hinj := List.inj_on_of_nodup_map hnodup
  have hstore : (cleanupRun d false now st files).1
      = st.filter (fun r => !(isOldTerminal (now - d * 86400000) r)) := by
    show ((st.filter (isOldTerminal (now - d * 86400000))).foldl
        (cleanupStep false) (st, files, {})).1 = _
    rw [cleanup_fold_store]
    apply List.filter_congr
    intro x hx
    cases hsel : isOldTerminal (now - d * 86400000) x with
    | true =>
      simp only [Bool.not_true]
      rw [List.all_eq_false]
      refine ⟨x, List.mem_filter.mpr ⟨hx, hsel⟩, by simp⟩
    | false =>
      simp only [Bool.not_false]
      rw [List.all_eq_true]
      intro r hr
      have hr' := List.mem_filter.mp hr
      simp only [decide_eq_true_eq]
      intro he
      have : r = x := hinj hr'.1 hx he.symm
      rw [this] at hr'
      rw [hr'.2] at hsel
      cases hsel
  refine ⟨hstore, ?_, ?_, ?_⟩
  · show ((st.filter (isOldTerminal (now - d * 86400000))).foldl
        (cleanupStep false) (st, files, {})).2.1 = _
    rw [cleanup_fold_files]
    apply List.filter_congr
    intro f _
    cases hany : st.any (fun r => isOldTerminal (now - d * 86400000) r
        && r.filePath == some f.1) with
    | true =>
      simp only [Bool.not_true]
      rcases List.any_eq_true.mp hany with ⟨r, hrst, hrb⟩
      rcases (Bool.and_eq_true _ _).mp hrb with ⟨hsel, hp⟩
      rw [List.all_eq_false]
      exact ⟨r, List.mem_filter.mpr ⟨hrst, hsel⟩, by simp [hp]⟩
    | false =>
      simp only [Bool.not_false]
      rw [List.all_eq_true]
      intro r hr
      have hr' := List.mem_filter.mp hr
      have hall := List.any_eq_false.mp hany r hr'.1
      rw [hr'.2, Bool.true_and] at hall
      simp [hall]
  · exact cleanup_fold_errors false _ st files {}
  · intro r hr hstat
    rw [hstore]
    apply List.mem_filter.mpr
    refine ⟨hr, ?_⟩
    unfold isOldTerminal
    rcases hstat with h | h <;> rw [h] <;> simp

theorem cleanupRun_exact_witness :
    ((cleanupRun 7 false (10 * 86400000)
        [{ eid := 1, format := .csv, filters := [], status := .completed,
           filePath := some "exports/a.csv", createdAt := 0 },
         { eid := 2, format := .json, filters := [], status := .pending, createdAt := 0 }]
        [("exports/a.csv", "data")]).1
      = [{ eid := 2, format := .json, filters := [], status := .pending, createdAt := 0 }]
    ∧ (cleanupRun 7 false (10 * 86400000)
        [{ eid := 1, format := .csv, filters := [], status := .completed,
           filePath := some "exports/a.csv", createdAt := 0 },
         { eid := 2, format := .json, filters := [], status := .pending, createdAt := 0 }]
        [("exports/a.csv", "data")]).2.1 = []) := by
  have h := cleanupRun_exact 7 (10 * 86400000)
    [{ eid := 1, format := .csv, filters := [], status := .completed,
       filePath := some "exports/a.csv", createdAt := 0 },
     { eid := 2, format := .json, filters := [], status := .pending, createdAt := 0 }]
    [("exports/a.csv", "data")] (by decide)
  refine ⟨?_, ?_⟩
  · rw [h.1]
    decide
  · rw [h.2.1]
    decide

/-! ## C9 — download error taxonomy -/

/-- C9: the download lookup distinguishes the three failure modes: unknown
id ↦ "Export not found"; job not completed ↦ "Export not completed"; job
completed but its artifact absent from the filesystem at call time ↦
"Export file no longer available" (presence is checked against the
filesystem, never trusted from the record). -/
theorem getExportFile_errors (s : Sys) (exportId : Nat) :
    (findById exportId s.store = none →
      getExportFile s exportId = .error "Export not found")
    ∧ (∀ job, findById exportId s.store = some job → job.status ≠ .completed →
      getExportFile s exportId = .error "Export not completed")
    ∧ (∀ job p, findById exportId s.store = some job → job.status = .completed →
      job.filePath = some p → (∀ f ∈ s.files, f.1 ≠ p) →
      getExportFile s exportId = .error "Export file no longer available") := by
  refine ⟨?_, ?_, ?_⟩
  · intro h
    simp [getExportFile, h]
  · intro job hj hs
    simp [getExportFile, hj, hs]
  · intro job p hj hs hp hnf
    have hfind : (s.files.find? fun f => f.1 = p) = none := by
      apply List.find?_eq_none.mpr
      intro f hf
      simpa using hnf f hf
    simp [getExportFile, hj, hs, hp, hfind]

theorem getExportFile_errors_witness :
    getExportFile { store := [], files := [], cache := [] } 1
      = .error "Export not found"
    ∧ getExportFile
        { store := [{ eid := 1, format := .csv, filters := [], createdAt := 0 }],
          files := [], cache := [] } 1 = .error "Export not completed"
    ∧ getExportFile
        { store := [{ eid := 1, format := .csv, filters := [], status := .completed,
                      filePath := some "exports/x.csv", fileName := some "x.csv",
                      createdAt := 0 }],
          files := [], cache := [] } 1 = .error "Export file no longer available" := by
  refine ⟨?_, ?_, ?_⟩
  · exact (getExportFile_errors _ 1).1 rfl
  · exact (getExportFile_errors _ 1).2.1 _ rfl (by decide)
  · exact (getExportFile_errors _ 1).2.2 _ _ rfl rfl rfl (by simp)

/-! ## C8 — malformed filter dates are not validated anywhere -/

/-- C8: the code raises no validation error for a malformed date — the
route accepts the request (creating a pending job, status 201) and
`buildQueryFromFilters` silently coerces the unparseable string into an
Invalid-Date `$gte` bound in the query (`gte = some none`). -/
theorem malformed_date_not_validated :
    jsParseDate "not-a-date" = none
    ∧ buildQueryFromFilters [("dateFrom", "not-a-date")]
      = { createdAt := some { gte := some none, lte := none } }
    ∧ (postExports
        { findTasks := fun _ => .ok [], writeOk := .ok (), setexResult := .ok (),
          getOk := true } 0 1 "csv" [("dateFrom", "not-a-date")]
        { store := [], files := [], cache := [] }).1
      = .created { eid := 1, format := .csv, filters := [("dateFrom", "not-a-date")],
                   createdAt := 0 } := by
  refine ⟨rfl, by decide, rfl⟩

/-! ## Store lemmas for the orchestrator proofs -/

theorem findById_upsert_self (st : Store) (r : ExportRec) :
    findById r.eid (upsert st r) = some r := by
  induction st with
  | nil =>
    show List.find? (fun q => q.eid = r.eid) [r] = some r
    rw [List.find?_cons_of_pos]
    simp
  | cons x xs ih =>
    by_cases h : x.eid = r.eid
    · show findById r.eid (if x.eid = r.eid then r :: xs else x :: upsert xs r) = some r
      rw [if_pos h]
      show List.find? (fun q => q.eid = r.eid) (r :: xs) = some r
      rw [List.find?_cons_of_pos]
      simp
    · show findById r.eid (if x.eid = r.eid then r :: xs else x :: upsert xs r) = some r
      rw [if_neg h]
      show List.find? (fun q => q.eid = r.eid) (x :: upsert xs r) = some r
      rw [List.find?_cons_of_neg]
      · exact ih
      · simp [h]

theorem findById_upsert_ne (st : Store) (r : ExportRec) (id : Nat) (h : id ≠ r.eid) :
    findById id (upsert st r) = findById id st := by
  have hr : ¬(r.eid = id) := fun he => h he.symm
  induction st with
  | nil =>
    show List.find? (fun q => q.eid = id) [r] = List.find? (fun q => q.eid = id) []
    rw [List.find?_cons_of_neg]
    simp [hr]
  | cons x xs ih =>
    by_cases hx : x.eid = r.eid
    · show findById id (if x.eid = r.eid then r :: xs else x :: upsert xs r) = _
      rw [if_pos hx]
      show List.find? (fun q => q.eid = id) (r :: xs)
        = List.find? (fun q => q.eid = id) (x :: xs)
      have hxid : ¬(x.eid = id) := by
        rw [hx]
        exact hr
      rw [List.find?_cons_of_neg _ (by simp [hr]), List.find?_cons_of_neg _ (by simp [hxid])]
    · show findById id (if x.eid = r.eid then r :: xs else x :: upsert xs r) = _
      rw [if_neg hx]
      show List.find? (fun q => q.eid = id) (x :: upsert xs r)
        = List.find? (fun q => q.eid = id) (x :: xs)
      by_cases hxi : x.eid = id
      · rw [List.find?_cons_of_pos _ (by simp [hxi]), List.find?_cons_of_pos _ (by simp [hxi])]
      · rw [List.find?_cons_of_neg _ (by simp [hxi]), List.find?_cons_of_neg _ (by simp [hxi])]
        exact ih

theorem mem_upsert (st : Store) (r x : ExportRec) (hx : x ∈ upsert st r) :
    x = r ∨ x ∈ st := by
  induction st with
  | nil =>
    simp [upsert] at hx
    exact Or.inl hx
  | cons y ys ih =>
    by_cases h : y.eid = r.eid
    · simp only [upsert, if_pos h] at hx
      rcases List.mem_cons.mp hx with h1 | h1
      · exact Or.inl h1
      · exact Or.inr (List.mem_cons_of_mem _ h1)
    · simp only [upsert, if_neg h] at hx
      rcases List.mem_cons.mp hx with h1 | h1
      · exact Or.inr (h1 ▸ List.mem_cons_self _ _)
      · rcases ih h1 with h2 | h2
        · exact Or.inl h2
        · exact Or.inr (List.mem_cons_of_mem _ h2)

/-- `completedAt` is preserved by an upsert whose document carries the old
value forward (or whose id had no record / no value before). -/
theorem preserves_upsert (st : Store) (r : ExportRec)
    (h : ∀ old, findById r.eid st = some old → ∀ t, old.completedAt = some t →
      r.completedAt = some t) :
    PreservesCompletedAt st (upsert st r) := by
  intro id t old hfind hct
  by_cases hid : id = r.eid
  · subst hid
    refine ⟨r, findById_upsert_self st r, h old hfind t hct⟩
  · exact ⟨old, by rw [findById_upsert_ne st r id hid]; exact hfind, hct⟩

/-! ## C2 — a cache-write failure is recorded as a job failure -/

/-- C2: with every cache operation failing (`get` raising — swallowed into
a miss — and `setex` raising), creation still returns a pending job, but
processing does **not** leave the job completed: the `setex` call sits
inside the try block after the completed save, so its failure is caught and
flips the already-completed job to `failed` with the cache error recorded
as the job error.  This contradicts the claim (and the spec's "cache errors
are always swallowed"). -/
theorem cache_failure_fails_job :
    (postExports
        { findTasks := fun _ => .ok [], writeOk := .ok (),
          setexResult := .error "Redis unavailable", getOk := false } 0 1 "csv" []
        { store := [], files := [], cache := [] }).1
      = .created { eid := 1, format := .csv, filters := [], createdAt := 0 }
    ∧ ((findById 1 (postExports
        { findTasks := fun _ => .ok [], writeOk := .ok (),
          setexResult := .error "Redis unavailable", getOk := false } 0 1 "csv" []
        { store := [], files := [], cache := [] }).2.1.store).map
          fun r => (r.status, r.error))
      = some (.failed, some "Redis unavailable") := by
  exact ⟨rfl, by decide⟩

/-! ## C10 — recordCount on failed jobs -/

/-- C10 counterexample: when the cache write fails after the completed save,
the failure path re-reads the job from the store — but the completed save
has already persisted the record count, so the job ends `failed` with
`recordCount = 1`, not 0. -/
theorem failed_recordCount_counterexample :
    ((findById 1 (postExports
        { findTasks := fun _ => .ok
            [{ oid := 7, title := "t", description := none, status := .pending,
               priority := .low, createdAt := 0, updatedAt := 0, completedAt := none,
               estimatedTime := none, actualTime := none }],
          writeOk := .ok (), setexResult := .error "boom", getOk := true } 0 1 "csv" []
        { store := [], files := [], cache := [] }).2.1.store).map
      fun r => (r.status, r.recordCount)) = some (.failed, 1) := by
  decide

/-! ## Symbolic execution lemmas for one processing run -/

theorem createExport_run (now newId : Nat) (fmt : Fmt) (filters : Filters) (st : Store)
    (hfresh : findById newId st = none) :
    createExport now newId fmt filters st
      = (upsert st { eid := newId, format := fmt, filters := filters, createdAt := now },
         { eid := newId, format := fmt, filters := filters, createdAt := now }) := by
  unfold createExport saveRec
  simp [hfresh]

theorem saveRec_processing (now : Nat) (st : Store) (j : ExportRec) :
    saveRec now st { j with status := .processing }
      = (upsert st { j with status := .processing }, { j with status := .processing }) := by
  unfold saveRec
  simp

theorem saveRec_terminal (now : Nat) (st : Store) (doc stored : ExportRec)
    (hfind : findById doc.eid st = some stored)
    (hmod : stored.status ≠ doc.status)
    (hterm : doc.status = .completed ∨ doc.status = .failed)
    (hct : doc.completedAt = none) :
    saveRec now st doc = (upsert st { doc with completedAt := some now },
      { doc with completedAt := some now }) := by
  unfold saveRec
  rcases hterm with h | h
  · have hmod' : ¬(stored.status = ExpStatus.completed) := fun he => hmod (he.trans h.symm)
    simp [hfind, h, hct, bne_iff_ne, hmod', hmod]
  · have hmod' : ¬(stored.status = ExpStatus.failed) := fun he => hmod (he.trans h.symm)
    simp [hfind, h, hct, bne_iff_ne, hmod', hmod]

theorem saveRec_keep_completedAt (now : Nat) (st : Store) (doc : ExportRec) (t : Nat)
    (hct : doc.completedAt = some t) :
    saveRec now st doc = (upsert st doc, doc) := by
  unfold saveRec
  simp [hct]

theorem processFail_eq (now : Nat) (msg : String) (exportId : Nat) (s : Sys)
    (tr : List Store) (job : ExportRec) (hj : findById exportId s.store = some job) :
    processFail now msg exportId s tr
      = ({ s with store :=
            (saveRec now s.store { job with status := .failed, error := some msg }).1 },
         tr ++ [(saveRec now s.store { job with status := .failed, error := some msg }).1]) := by
  unfold processFail
  simp only [hj]

theorem allRecInv_upsert (st : Store) (j : ExportRec)
    (hst : ∀ r ∈ st, recInv r) (hj : recInv j) :
    ∀ r ∈ upsert st j, recInv r := by
  intro r hr
  rcases mem_upsert st j r hr with h | h
  · exact h ▸ hj
  · exact hst r h

theorem run_eq_taskfail (env : Env) (now exportId : Nat) (s : Sys) (job0 : ExportRec)
    (hj : findById exportId s.store = some job0)
    (hid : job0.eid = exportId)
    (hct : job0.completedAt = none)
    (msg : String)
    (henv : env.findTasks (buildQueryFromFilters job0.filters) = .error msg) :
    processExport env now exportId s
      = ({ s with store :=
              upsert (upsert s.store (procRec job0)) (failRec now msg job0) },
         [upsert s.store (procRec job0),
          upsert (upsert s.store (procRec job0)) (failRec now msg job0)]) := by
  have hfind1 : findById exportId (upsert s.store (procRec job0))
      = some (procRec job0) := by
    have h := findById_upsert_self s.store (procRec job0)
    simpa [hid, procRec] using h
  unfold processExport
  simp only [hj, procRec, saveRec_processing, henv]
  rw [processFail_eq now msg exportId _ _ _ (by simpa [procRec] using hfind1)]
  rw [saveRec_terminal now _ _ (procRec job0)
    (by simpa [procRec, hid] using hfind1) (by simp [procRec]) (Or.inr (by simp))
    (by simp [procRec, hct])]
  simp [procRec, failRec]

theorem run_eq_writefail (env : Env) (now exportId : Nat) (s : Sys) (job0 : ExportRec)
    (hj : findById exportId s.store = some job0)
    (hid : job0.eid = exportId)
    (hct : job0.completedAt = none)
    (tasks : List Task) (msg : String)
    (henv : env.findTasks (buildQueryFromFilters job0.filters) = .ok tasks)
    (hw : env.writeOk = .error msg) :
    processExport env now exportId s
      = ({ s with store :=
              upsert (upsert s.store (procRec job0)) (failRec now msg job0) },
         [upsert s.store (procRec job0),
          upsert (upsert s.store (procRec job0)) (failRec now msg job0)]) := by
  have hfind1 : findById exportId (upsert s.store (procRec job0))
      = some (procRec job0) := by
    have h := findById_upsert_self s.store (procRec job0)
    simpa [hid, procRec] using h
  unfold processExport
  simp only [hj, procRec, saveRec_processing, henv, hw]
  rw [processFail_eq now msg exportId _ _ _ (by simpa [procRec] using hfind1)]
  rw [saveRec_terminal now _ _ (procRec job0)
    (by simpa [procRec, hid] using hfind1) (by simp [procRec]) (Or.inr (by simp))
    (by simp [procRec, hct])]
  simp [procRec, failRec]

theorem run_eq_complete (env : Env) (now exportId : Nat) (s : Sys) (job0 : ExportRec)
    (hj : findById exportId s.store = some job0)
    (hid : job0.eid = exportId)
    (hct : job0.completedAt = none)
    (tasks : List Task)
    (henv : env.findTasks (buildQueryFromFilters job0.filters) = .ok tasks)
    (hw : env.writeOk = .ok ()) (hs : env.setexResult = .ok ()) :
    (processExport env now exportId s).1.store
      = upsert (upsert s.store (procRec job0))
          (doneRec now tasks.length
            ("exports/" ++ generateFileName job0.format job0.filters now)
            (generateFileName job0.format job0.filters now) (procRec job0))
    ∧ (processExport env now exportId s).2
      = [upsert s.store (procRec job0),
         upsert (upsert s.store (procRec job0))
           (doneRec now tasks.length
             ("exports/" ++ generateFileName job0.format job0.filters now)
             (generateFileName job0.format job0.filters now) (procRec job0))] := by
  have hfind1 : findById exportId (upsert s.store (procRec job0))
      = some (procRec job0) := by
    have h := findById_upsert_self s.store (procRec job0)
    simpa [hid, procRec] using h
  unfold processExport
  simp only [hj, procRec, saveRec_processing, henv, hw]
  rw [saveRec_terminal now _ _ (procRec job0)
    (by simpa [procRec, hid] using hfind1) (by simp [procRec]) (Or.inl (by simp))
    (by simp [procRec, hct])]
  simp only [hs]
  constructor
  · simp [procRec, doneRec]
  · simp [procRec, doneRec]

theorem run_eq_setexfail (env : Env) (now exportId : Nat) (s : Sys) (job0 : ExportRec)
    (hj : findById exportId s.store = some job0)
    (hid : job0.eid = exportId)
    (hct : job0.completedAt = none)
    (tasks : List Task) (msg : String)
    (henv : env.findTasks (buildQueryFromFilters job0.filters) = .ok tasks)
    (hw : env.writeOk = .ok ()) (hs : env.setexResult = .error msg) :
    (processExport env now exportId s).1.store
      = upsert (upsert (upsert s.store (procRec job0))
          (doneRec now tasks.length
            ("exports/" ++ generateFileName job0.format job0.filters now)
            (generateFileName job0.format job0.filters now) (procRec job0)))
          (failRec2 msg (doneRec now tasks.length
            ("exports/" ++ generateFileName job0.format job0.filters now)
            (generateFileName job0.format job0.filters now) (procRec job0)))
    ∧ (processExport env now exportId s).2
      = [upsert s.store (procRec job0),
         upsert (upsert s.store (procRec job0))
           (doneRec now tasks.length
             ("exports/" ++ generateFileName job0.format job0.filters now)
             (generateFileName job0.format job0.filters now) (procRec job0)),
         upsert (upsert (upsert s.store (procRec job0))
           (doneRec now tasks.length
             ("exports/" ++ generateFileName job0.format job0.filters now)
             (generateFileName job0.format job0.filters now) (procRec job0)))
           (failRec2 msg (doneRec now tasks.length
             ("exports/" ++ generateFileName job0.format job0.filters now)
             (generateFileName job0.format job0.filters now) (procRec job0)))] := by
  have hfind1 : findById exportId (upsert s.store (procRec job0))
      = some (procRec job0) := by
    have h := findById_upsert_self s.store (procRec job0)
    simpa [hid, procRec] using h
  have hfindC : findById exportId (upsert (upsert s.store (procRec job0))
      (doneRec now tasks.length
        ("exports/" ++ generateFileName job0.format job0.filters now)
        (generateFileName job0.format job0.filters now) (procRec job0)))
      = some (doneRec now tasks.length
          ("exports/" ++ generateFileName job0.format job0.filters now)
          (generateFileName job0.format job0.filters now) (procRec job0)) := by
    have h := findById_upsert_self (upsert s.store (procRec job0))
      (doneRec now tasks.length
        ("exports/" ++ generateFileName job0.format job0.filters now)
        (generateFileName job0.format job0.filters now) (procRec job0))
    simpa [hid, procRec, doneRec] using h
  unfold processExport
  simp only [hj, procRec, saveRec_processing, henv, hw]
  rw [saveRec_terminal now _ _ (procRec job0)
    (by simpa [procRec, hid] using hfind1) (by simp [procRec]) (Or.inl (by simp))
    (by simp [procRec, hct])]
  simp only [hs]
  rw [processFail_eq now msg exportId _ _ _ (by simpa [procRec, doneRec] using hfindC)]
  rw [saveRec_keep_completedAt now _ _ now (by simp [procRec, doneRec])]
  constructor
  · simp [procRec, doneRec, failRec2]
  · simp [procRec, doneRec, failRec2]

/-- Everything C3 and C10 need about one full processing run of a fresh
pending job: every observable store state keeps the record invariant,
`completedAt` is never reset across consecutive observable states, and — as
long as the cache write succeeds — a job that ends `failed` has
`recordCount = 0`. -/
theorem processExport_lifecycle (env : Env) (now exportId : Nat) (s : Sys)
    (job0 : ExportRec)
    (hj : findById exportId s.store = some job0)
    (hid : job0.eid = exportId)
    (hct : job0.completedAt = none)
    (hrc : job0.recordCount = 0) :
    ((∀ r ∈ s.store, recInv r) →
      ∀ st ∈ (processExport env now exportId s).2, ∀ r ∈ st, recInv r)
    ∧ List.Chain' PreservesCompletedAt (s.store :: (processExport env now exportId s).2)
    ∧ (env.setexResult = .ok () →
      ∀ r, findById exportId (processExport env now exportId s).1.store = some r →
        r.status = .failed → r.recordCount = 0) := by
  have hproc_inv : recInv (procRec job0) := by simp [recInv, procRec]
  have hfind1 : findById exportId (upsert s.store (procRec job0))
      = some (procRec job0) := by
    simpa [hid, procRec] using findById_upsert_self s.store (procRec job0)
  have hchain1 : PreservesCompletedAt s.store (upsert s.store (procRec job0)) := by
    apply preserves_upsert
    intro old hold t hct'
    rw [show (procRec job0).eid = exportId from by simpa [procRec] using hid, hj] at hold
    injection hold with he
    rw [← he, hct] at hct'
    cases hct'
  -- the two failure-before-completion result shapes share everything
  have failCase : ∀ msg : String,
      processExport env now exportId s
        = ({ s with store :=
                upsert (upsert s.store (procRec job0)) (failRec now msg job0) },
           [upsert s.store (procRec job0),
            upsert (upsert s.store (procRec job0)) (failRec now msg job0)]) →
      ((∀ r ∈ s.store, recInv r) →
        ∀ st ∈ (processExport env now exportId s).2, ∀ r ∈ st, recInv r)
      ∧ List.Chain' PreservesCompletedAt
          (s.store :: (processExport env now exportId s).2)
      ∧ (env.setexResult = .ok () →
        ∀ r, findById exportId (processExport env now exportId s).1.store = some r →
          r.status = .failed → r.recordCount = 0) := by
    intro msg hrun
    have hfail_inv : recInv (failRec now msg job0) := by simp [recInv, failRec]
    have hfindF : findById exportId
        (upsert (upsert s.store (procRec job0)) (failRec now msg job0))
        = some (failRec now msg job0) := by
      simpa [hid, failRec] using
        findById_upsert_self (upsert s.store (procRec job0)) (failRec now msg job0)
    refine ⟨?_, ?_, ?_⟩
    · intro hinv st hst r hr
      rw [hrun] at hst
      simp only [List.mem_cons, List.not_mem_nil, or_false] at hst
      rcases hst with rfl | rfl
      · exact allRecInv_upsert _ _ hinv hproc_inv r hr
      · exact allRecInv_upsert _ _ (allRecInv_upsert _ _ hinv hproc_inv) hfail_inv r hr
    · rw [hrun]
      rw [List.chain'_cons, List.chain'_cons]
      refine ⟨hchain1, ?_, List.chain'_singleton _⟩
      apply preserves_upsert
      intro old hold t hct'
      rw [show (failRec now msg job0).eid = exportId from by simpa [failRec] using hid,
        hfind1] at hold
      injection hold with he
      rw [← he] at hct'
      simp [procRec, hct] at hct'
    · intro _ r hr _
      rw [hrun] at hr
      simp only at hr
      rw [hfindF] at hr
      injection hr with he
      rw [← he]
      simp [failRec, hrc]
  rcases henv : env.findTasks (buildQueryFromFilters job0.filters) with msg | tasks
  · exact failCase msg (run_eq_taskfail env now exportId s job0 hj hid hct msg henv)
  · rcases hw : env.writeOk with msg | u
    · exact failCase msg
        (run_eq_writefail env now exportId s job0 hj hid hct tasks msg henv hw)
    · cases u
      rcases hs : env.setexResult with msg | u2
      · -- cache write fails after completion
        obtain ⟨hrunS, hrunT⟩ :=
          run_eq_setexfail env now exportId s job0 hj hid hct tasks msg henv hw hs
        have hdone_inv : recInv (doneRec now tasks.length
            ("exports/" ++ generateFileName job0.format job0.filters now)
            (generateFileName job0.format job0.filters now) (procRec job0)) := by
          simp [recInv, doneRec]
        have hfail2_inv : recInv (failRec2 msg (doneRec now tasks.length
            ("exports/" ++ generateFileName job0.format job0.filters now)
            (generateFileName job0.format job0.filters now) (procRec job0))) := by
          simp [recInv, failRec2]
        have hfindC : findById exportId (upsert (upsert s.store (procRec job0))
            (doneRec now tasks.length
              ("exports/" ++ generateFileName job0.format job0.filters now)
              (generateFileName job0.format job0.filters now) (procRec job0)))
            = some (doneRec now tasks.length
                ("exports/" ++ generateFileName job0.format job0.filters now)
                (generateFileName job0.format job0.filters now) (procRec job0)) := by
          simpa [hid, procRec, doneRec] using
            findById_upsert_self (upsert s.store (procRec job0))
              (doneRec now tasks.length
                ("exports/" ++ generateFileName job0.format job0.filters now)
                (generateFileName job0.format job0.filters now) (procRec job0))
        refine ⟨?_, ?_, ?_⟩
        · intro hinv st hst r hr
          rw [hrunT] at hst
          simp only [List.mem_cons, List.not_mem_nil, or_false] at hst
          rcases hst with rfl | rfl | rfl
          · exact allRecInv_upsert _ _ hinv hproc_inv r hr
          · exact allRecInv_upsert _ _ (allRecInv_upsert _ _ hinv hproc_inv) hdone_inv r hr
          · exact allRecInv_upsert _ _
              (allRecInv_upsert _ _ (allRecInv_upsert _ _ hinv hproc_inv) hdone_inv)
              hfail2_inv r hr
        · rw [hrunT]
          rw [List.chain'_cons, List.chain'_cons, List.chain'_cons]
          refine ⟨hchain1, ?_, ?_, List.chain'_singleton _⟩
          · apply preserves_upsert
            intro old hold t hct'
            rw [show (doneRec now tasks.length
                ("exports/" ++ generateFileName job0.format job0.filters now)
                (generateFileName job0.format job0.filters now) (procRec job0)).eid
                = exportId from by simpa [doneRec, procRec] using hid, hfind1] at hold
            injection hold with he
            rw [← he] at hct'
            simp [procRec, hct] at hct'
          · apply preserves_upsert
            intro old hold t hct'
            rw [show (failRec2 msg (doneRec now tasks.length
                ("exports/" ++ generateFileName job0.format job0.filters now)
                (generateFileName job0.format job0.filters now) (procRec job0))).eid
                = exportId from by simpa [failRec2, doneRec, procRec] using hid,
              hfindC] at hold
            injection hold with he
            rw [← he] at hct'
            simp only [doneRec] at hct'
            simp [failRec2, doneRec]
            simp at hct'
            exact hct'
        · intro hset
          cases hset
      · -- the successful run
        cases u2
        obtain ⟨hrunS, hrunT⟩ :=
          run_eq_complete env now exportId s job0 hj hid hct tasks henv hw hs
        have hdone_inv : recInv (doneRec now tasks.length
            ("exports/" ++ generateFileName job0.format job0.filters now)
            (generateFileName job0.format job0.filters now) (procRec job0)) := by
          simp [recInv, doneRec]
        have hfindC : findById exportId (upsert (upsert s.store (procRec job0))
            (doneRec now tasks.length
              ("exports/" ++ generateFileName job0.format job0.filters now)
              (generateFileName job0.format job0.filters now) (procRec job0)))
            = some (doneRec now tasks.length
                ("exports/" ++ generateFileName job0.format job0.filters now)
                (generateFileName job0.format job0.filters now) (procRec job0)) := by
          simpa [hid, procRec, doneRec] using
            findById_upsert_self (upsert s.store (procRec job0))
              (doneRec now tasks.length
                ("exports/" ++ generateFileName job0.format job0.filters now)
                (generateFileName job0.format job0.filters now) (procRec job0))
        refine ⟨?_, ?_, ?_⟩
        · intro hinv st hst r hr
          rw [hrunT] at hst
          simp only [List.mem_cons, List.not_mem_nil, or_false] at hst
          rcases hst with rfl | rfl
          · exact allRecInv_upsert _ _ hinv hproc_inv r hr
          · exact allRecInv_upsert _ _ (allRecInv_upsert _ _ hinv hproc_inv) hdone_inv r hr
        · rw [hrunT]
          rw [List.chain'_cons, List.chain'_cons]
          refine ⟨hchain1, ?_, List.chain'_singleton _⟩
          apply preserves_upsert
          intro old hold t hct'
          rw [show (doneRec now tasks.length
              ("exports/" ++ generateFileName job0.format job0.filters now)
              (generateFileName job0.format job0.filters now) (procRec job0)).eid
              = exportId from by simpa [doneRec, procRec] using hid, hfind1] at hold
          injection hold with he
          rw [← he] at hct'
          simp [procRec, hct] at hct'
        · intro _ r hr hfail
          rw [hrunS, hfindC] at hr
          injection hr with he
          rw [← he] at hfail
          simp [doneRec] at hfail

/-! ## C3 — observable record invariants -/

/-- C3: over a full lifecycle (creation then processing) of a fresh job,
every externally observable store state satisfies: completed records have
`filePath`/`fileName` set (set atomically with the status by the same
save), failed records have `error` set; and `completedAt`, once set, is
never changed in any later observable state. -/
theorem export_observable_invariants (env : Env) (now newId : Nat) (fmt : Fmt)
    (filters : Filters) (s : Sys)
    (hfresh : findById newId s.store = none)
    (hinv : ∀ r ∈ s.store, recInv r) :
    (∀ st ∈ (createExport now newId fmt filters s.store).1
        :: (processExport env now newId
            { s with store := (createExport now newId fmt filters s.store).1 }).2,
      ∀ r ∈ st, recInv r)
    ∧ List.Chain' PreservesCompletedAt
        (s.store :: (createExport now newId fmt filters s.store).1
          :: (processExport env now newId
              { s with store := (createExport now newId fmt filters s.store).1 }).2) := by
  have hst0 : (createExport now newId fmt filters s.store).1
      = upsert s.store (pendRec now newId fmt filters) := by
    rw [createExport_run now newId fmt filters s.store hfresh]
    simp [pendRec]
  have hfind0 : findById newId (upsert s.store (pendRec now newId fmt filters))
      = some (pendRec now newId fmt filters) := by
    simpa [pendRec] using findById_upsert_self s.store (pendRec now newId fmt filters)
  rw [hst0]
  have hlife := processExport_lifecycle env now newId
      { s with store := upsert s.store (pendRec now newId fmt filters) }
      (pendRec now newId fmt filters) (by simpa using hfind0) (by simp [pendRec])
      (by simp [pendRec]) (by simp [pendRec])
  have hpend_inv : recInv (pendRec now newId fmt filters) := by simp [recInv, pendRec]
  refine ⟨?_, ?_⟩
  · intro st hst r hr
    rcases List.mem_cons.mp hst with rfl | hst'
    · exact allRecInv_upsert _ _ hinv hpend_inv r hr
    · exact hlife.1 (allRecInv_upsert _ _ hinv hpend_inv) st hst' r hr
  · rw [List.chain'_cons]
    refine ⟨?_, hlife.2.1⟩
    apply preserves_upsert
    intro old hold t _
    rw [show (pendRec now newId fmt filters).eid = newId from by simp [pendRec],
      hfresh] at hold
    cases hold

theorem export_observable_invariants_witness :
    (∀ st ∈ (createExport 5 1 Fmt.csv [] emptySys.store).1
        :: (processExport okEnv 5 1
            { emptySys with store := (createExport 5 1 Fmt.csv [] emptySys.store).1 }).2,
      ∀ r ∈ st, recInv r)
    ∧ List.Chain' PreservesCompletedAt
        (emptySys.store :: (createExport 5 1 Fmt.csv [] emptySys.store).1
          :: (processExport okEnv 5 1
              { emptySys with store := (createExport 5 1 Fmt.csv [] emptySys.store).1 }).2) :=
  export_observable_invariants okEnv 5 1 Fmt.csv [] emptySys rfl (by simp [emptySys])

/-! ## C10 (amended) — recordCount on failed jobs, cache write succeeding -/

/-- C10 (amended): as long as the cache write does not fail, every job that
ends `failed` has `recordCount = 0`: the count lives only on the in-memory
document and the failure path re-reads the job from the store, discarding
it.  (When the cache write fails after the completed save, the count has
already been persisted — see the counterexample.) -/
theorem failed_recordCount_zero (env : Env) (now newId : Nat) (fmt : Fmt)
    (filters : Filters) (s : Sys)
    (hfresh : findById newId s.store = none)
    (hset : env.setexResult = .ok ()) (r : ExportRec)
    (hr : findById newId (processExport env now newId
        { s with store := (createExport now newId fmt filters s.store).1 }).1.store
      = some r)
    (hfail : r.status = .failed) :
    r.recordCount = 0 := by
  have hst0 : (createExport now newId fmt filters s.store).1
      = upsert s.store (pendRec now newId fmt filters) := by
    rw [createExport_run now newId fmt filters s.store hfresh]
    simp [pendRec]
  have hfind0 : findById newId (upsert s.store (pendRec now newId fmt filters))
      = some (pendRec now newId fmt filters) := by
    simpa [pendRec] using findById_upsert_self s.store (pendRec now newId fmt filters)
  rw [hst0] at hr
  exact (processExport_lifecycle env now newId
      { s with store := upsert s.store (pendRec now newId fmt filters) }
      (pendRec now newId fmt filters) (by simpa using hfind0) (by simp [pendRec])
      (by simp [pendRec]) (by simp [pendRec])).2.2 hset r hr hfail

theorem failed_recordCount_zero_witness :
    ({ eid := 1, format := Fmt.csv, filters := [], recordCount := 0,
       status := .failed, filePath := none, fileName := none, createdAt := 5,
       completedAt := some 5, error := some "db down" } : ExportRec).recordCount = 0 :=
  failed_recordCount_zero failEnv 5 1 Fmt.csv [] emptySys rfl rfl _ (by decide) rfl

/-! ## C4 — idempotent short-circuit on a completed cache hit -/

/-- C4: a second request with identical (format, filters), while the cache
entry written on the first job's completion is alive and the referenced job
is completed, returns that job and leaves the whole system unchanged — no
new Export record, no second file, no state transition. -/
theorem export_idempotent (env : Env) (now newId : Nat) (fmt : Fmt)
    (filters : Filters) (s : Sys) (entry : CacheEntry) (j : ExportRec)
    (hget : env.getOk = true)
    (hc : cacheGet (generateCacheKey filters (fmtStr fmt)) s.cache = some entry)
    (hjob : findById entry.exportId s.store = some j)
    (hcomp : j.status = .completed) :
    postExports env now newId (fmtStr fmt) filters s = (.cacheHit j, s, []) := by
  have hcache : getCachedExport env filters (fmtStr fmt) s = some j := by
    unfold getCachedExport
    simp [hget, hc, hjob, hcomp]
  unfold postExports
  have hfmt : ¬(fmtStr fmt ≠ "csv" ∧ fmtStr fmt ≠ "json") := by
    cases fmt <;> simp [fmtStr]
  rw [if_neg hfmt, hcache]

theorem export_idempotent_witness :
    postExports okEnv 9 2 (fmtStr Fmt.csv) []
      { store := [{ eid := 1, format := Fmt.csv, filters := [], status := .completed,
                    filePath := some "exports/f.csv", fileName := some "f.csv",
                    createdAt := 0, completedAt := some 1 }],
        files := [("exports/f.csv", "x")],
        cache := [(generateCacheKey [] "csv",
          { exportId := 1, fileName := "f.csv", recordCount := 0, createdAt := 0 })] }
      = (.cacheHit { eid := 1, format := Fmt.csv, filters := [], status := .completed,
                     filePath := some "exports/f.csv", fileName := some "f.csv",
                     createdAt := 0, completedAt := some 1 },
         { store := [{ eid := 1, format := Fmt.csv, filters := [], status := .completed,
                       filePath := some "exports/f.csv", fileName := some "f.csv",
                       createdAt := 0, completedAt := some 1 }],
           files := [("exports/f.csv", "x")],
           cache := [(generateCacheKey [] "csv",
             { exportId := 1, fileName := "f.csv", recordCount := 0, createdAt := 0 })] },
         []) :=
  export_idempotent okEnv 9 2 Fmt.csv [] _ _ _ rfl
    (set_option maxRecDepth 100000 in rfl) rfl rfl

/-! ## C6 — the generated JSON document is syntactically valid

First the leaf derivations: escaped string bodies, decimal number literals. -/

theorem char_eq_of_toNat_eq {a b : Char} (h : a.toNat = b.toNat) : a = b := by
  have ha := Char.ofNat_toNat a
  have hb := Char.ofNat_toNat b
  rw [← ha, ← hb, h]

theorem isHexChar_hexDigitChar (d : Nat) (h : d < 16) : isHexChar (hexDigitChar d) = true := by
  interval_cases d <;> decide

theorem hexCharVal_hexDigitChar (d : Nat) (h : d < 16) : hexCharVal (hexDigitChar d) = d := by
  interval_cases d <;> decide

theorem jsonEscape_body (l : List Char) : JStrBody l (l.flatMap jsonEscapeChar) := by
  induction l with
  | nil => exact JStrBody.nil
  | cons c l ih =>
    rw [List.flatMap_cons]
    unfold jsonEscapeChar
    by_cases h1 : c = '"'
    · rw [if_pos h1, h1]
      exact JStrBody.escQuote l _ ih
    · rw [if_neg h1]
      by_cases h2 : c = '\\'
      · rw [if_pos h2, h2]
        exact JStrBody.escBack l _ ih
      · rw [if_neg h2]
        by_cases h3 : c.toNat = 8
        · rw [if_pos h3, char_eq_of_toNat_eq (a := c) (b := '\x08') (by rw [h3]; rfl)]
          exact JStrBody.escB l _ ih
        · rw [if_neg h3]
          by_cases h4 : c.toNat = 9
          · rw [if_pos h4, char_eq_of_toNat_eq (a := c) (b := '\x09') (by rw [h4]; rfl)]
            exact JStrBody.escT l _ ih
          · rw [if_neg h4]
            by_cases h5 : c.toNat = 10
            · rw [if_pos h5, char_eq_of_toNat_eq (a := c) (b := '\x0a') (by rw [h5]; rfl)]
              exact JStrBody.escN l _ ih
            · rw [if_neg h5]
              by_cases h6 : c.toNat = 12
              · rw [if_pos h6, char_eq_of_toNat_eq (a := c) (b := '\x0c') (by rw [h6]; rfl)]
                exact JStrBody.escF l _ ih
              · rw [if_neg h6]
                by_cases h7 : c.toNat = 13
                · rw [if_pos h7,
                    char_eq_of_toNat_eq (a := c) (b := '\x0d') (by rw [h7]; rfl)]
                  exact JStrBody.escR l _ ih
                · rw [if_neg h7]
                  by_cases h8 : c.toNat < 32
                  · rw [if_pos h8]
                    refine JStrBody.escU c (hexDigitChar (c.toNat / 4096 % 16))
                      (hexDigitChar (c.toNat / 256 % 16)) (hexDigitChar (c.toNat / 16 % 16))
                      (hexDigitChar (c.toNat % 16)) l _
                      (isHexChar_hexDigitChar _ (Nat.mod_lt _ (by omega)))
                      (isHexChar_hexDigitChar _ (Nat.mod_lt _ (by omega)))
                      (isHexChar_hexDigitChar _ (Nat.mod_lt _ (by omega)))
                      (isHexChar_hexDigitChar _ (Nat.mod_lt _ (by omega)))
                      ?_ (by omega) ih
                    rw [hexCharVal_hexDigitChar _ (Nat.mod_lt _ (by omega)),
                      hexCharVal_hexDigitChar _ (Nat.mod_lt _ (by omega)),
                      hexCharVal_hexDigitChar _ (Nat.mod_lt _ (by omega)),
                      hexCharVal_hexDigitChar _ (Nat.mod_lt _ (by omega))]
                    omega
                  · rw [if_neg h8]
                    exact JStrBody.raw c l _ h1 h2 (by omega) ih

theorem natCharsAux_irrel (n : Nat) : ∀ (f1 f2 : Nat), n < f1 → n < f2 →
    natCharsAux f1 n = natCharsAux f2 n := by
  induction n using Nat.strong_induction_on with
  | _ n ih =>
    intro f1 f2 hf1 hf2
    match f1, f2 with
    | g1 + 1, g2 + 1 =>
      show natCharsAux (g1 + 1) n = natCharsAux (g2 + 1) n
      rw [natCharsAux, natCharsAux]
      by_cases h : n < 10
      · simp [h]
      · simp only [if_neg h]
        have hdiv : n / 10 < n := Nat.div_lt_self (by omega) (by omega)
        rw [ih (n / 10) hdiv g1 g2 (by omega) (by omega)]

theorem natChars_unfold (n : Nat) : natChars n
    = if n < 10 then [digitChar n] else natChars (n / 10) ++ [digitChar (n % 10)] := by
  have hdiv : ∀ m : Nat, ¬m < 10 → m / 10 < m := fun m hm =>
    Nat.div_lt_self (by omega) (by omega)
  by_cases h : n < 10
  · rw [if_pos h]
    show natCharsAux (n + 1) n = _
    rw [natCharsAux, if_pos h]
  · rw [if_neg h]
    show natCharsAux (n + 1) n = _
    rw [natCharsAux, if_neg h]
    congr 1
    exact natCharsAux_irrel (n / 10) n (n / 10 + 1) (hdiv n h) (by omega)

theorem natChars_ne_nil (n : Nat) : natChars n ≠ [] := by
  rw [natChars_unfold]
  by_cases h : n < 10 <;> simp [h]

theorem digitChar_toNat (d : Nat) (h : d < 10) : (digitChar d).toNat = 48 + d := by
  interval_cases d <;> decide

theorem digitsVal_append_singleton (xs : List Char) (c : Char) :
    digitsVal (xs ++ [c]) = 10 * digitsVal xs + (c.toNat - 48) := by
  unfold digitsVal
  rw [List.foldl_append]
  rfl

theorem digitsVal_natChars (n : Nat) : digitsVal (natChars n) = n := by
  induction n using Nat.strong_induction_on with
  | _ n ih =>
    rw [natChars_unfold]
    by_cases h : n < 10
    · simp only [if_pos h]
      show digitsVal [digitChar n] = n
      unfold digitsVal
      simp [digitChar_toNat n h]
    · simp only [if_neg h]
      rw [digitsVal_append_singleton, ih (n / 10) (Nat.div_lt_self (by omega) (by omega)),
        digitChar_toNat (n % 10) (Nat.mod_lt _ (by omega))]
      omega

theorem natChars_head_ne_zero (n : Nat) (hn : n ≠ 0) :
    ∀ d ds', natChars n = d :: ds' → d ≠ '0' := by
  induction n using Nat.strong_induction_on with
  | _ n ih =>
    intro d ds' he
    rw [natChars_unfold] at he
    by_cases h : n < 10
    · rw [if_pos h] at he
      injection he with h1 _
      rw [← h1]
      interval_cases n
      · exact absurd rfl hn
      all_goals decide
    · rw [if_neg h] at he
      have hne := natChars_ne_nil (n / 10)
      rcases hh : natChars (n / 10) with _ | ⟨x, xs⟩
      · exact absurd hh hne
      · rw [hh] at he
        simp only [List.cons_append] at he
        injection he with h1 _
        rw [← h1]
        exact ih (n / 10) (Nat.div_lt_self (by omega) (by omega)) (by omega) x xs hh

theorem jnumR (n : Nat) : JValR (.num n) (natStr n).data := by
  apply JValR.num n (natChars n) (natChars_ne_nil n) ?_ ?_ (digitsVal_natChars n)
  · intro c hc
    have := mem_natCharsAux _ _ _ hc
    fin_cases this <;> decide
  · intro d ds' he hne
    by_cases hn : n = 0
    · rw [hn] at he
      rw [show natChars 0 = ['0'] from by decide] at he
      injection he with _ h2
      exact absurd h2.symm hne
    · exact natChars_head_ne_zero n hn d ds' he

theorem jsonQuote_data (s : String) :
    (jsonQuote s).data = '"' :: (s.data.flatMap jsonEscapeChar) ++ ['"'] := by
  show (("\"" ++ jsonEscape s) ++ "\"").data = _
  rw [String.data_append, String.data_append]
  rfl

theorem jstrR (s : String) : JValR (.str s) (jsonQuote s).data := by
  rw [jsonQuote_data]
  exact JValR.str s _ (jsonEscape_body s.data)

theorem nl_not_mem_jsonEscapeChar (c c' : Char) (h : c' ∈ jsonEscapeChar c) : c' ≠ '\n' := by
  unfold jsonEscapeChar at h
  by_cases h1 : c = '"'
  · rw [if_pos h1] at h
    fin_cases h <;> decide
  · rw [if_neg h1] at h
    by_cases h2 : c = '\\'
    · rw [if_pos h2] at h
      fin_cases h <;> decide
    · rw [if_neg h2] at h
      by_cases h3 : c.toNat = 8
      · rw [if_pos h3] at h
        fin_cases h <;> decide
      · rw [if_neg h3] at h
        by_cases h4 : c.toNat = 9
        · rw [if_pos h4] at h
          fin_cases h <;> decide
        · rw [if_neg h4] at h
          by_cases h5 : c.toNat = 10
          · rw [if_pos h5] at h
            fin_cases h <;> decide
          · rw [if_neg h5] at h
            by_cases h6 : c.toNat = 12
            · rw [if_pos h6] at h
              fin_cases h <;> decide
            · rw [if_neg h6] at h
              by_cases h7 : c.toNat = 13
              · rw [if_pos h7] at h
                fin_cases h <;> decide
              · rw [if_neg h7] at h
                by_cases h8 : c.toNat < 32
                · rw [if_pos h8] at h
                  rcases List.mem_cons.mp h with h | h
                  · rw [h]; decide
                  · rcases List.mem_cons.mp h with h | h
                    · rw [h]; decide
                    · have hx : c' ∈ hexChars := by
                        unfold hex4 at h
                        rcases List.mem_cons.mp h with h | h
                        · rw [h]; exact hexDigitChar_mem _ (Nat.mod_lt _ (by omega))
                        · rcases List.mem_cons.mp h with h | h
                          · rw [h]; exact hexDigitChar_mem _ (Nat.mod_lt _ (by omega))
                          · rcases List.mem_cons.mp h with h | h
                            · rw [h]; exact hexDigitChar_mem _ (Nat.mod_lt _ (by omega))
                            · rw [List.mem_singleton] at h
                              rw [h]
                              exact hexDigitChar_mem _ (Nat.mod_lt _ (by omega))
                      exact (hexChars_safe c' hx).1
                · rw [if_neg h8] at h
                  rw [List.mem_singleton] at h
                  rw [h]
                  intro he
                  exact h8 (by rw [he]; decide)

theorem nl_not_mem_jsonQuote (s : String) : '\n' ∉ (jsonQuote s).data := by
  rw [jsonQuote_data]
  intro h
  rcases List.mem_cons.mp h with h | h
  · cases h
  · rcases List.mem_append.mp h with h | h
    · rcases List.mem_flatMap.mp h with ⟨c, _, hc⟩
      exact nl_not_mem_jsonEscapeChar c '\n' hc rfl
    · rcases List.mem_singleton.mp h with h
      cases h

theorem nl_not_mem_natStr (n : Nat) : '\n' ∉ (natStr n).data := by
  intro h
  have := mem_natCharsAux _ _ _ h
  exact (digits10_safe _ this).1 rfl

theorem renderPrim_ok (v : JVal) (h : PrimOnly v) :
    JValR v (renderPrim v).data ∧ '\n' ∉ (renderPrim v).data := by
  cases v with
  | str s => exact ⟨jstrR s, nl_not_mem_jsonQuote s⟩
  | num n => exact ⟨jnumR n, nl_not_mem_natStr n⟩
  | arr es => cases h
  | obj fs => cases h

/-! ### Rendering computations for the re-indented flat objects -/

theorem replaceNLData_append (ind a b : List Char) :
    replaceNLData ind (a ++ b) = replaceNLData ind a ++ replaceNLData ind b := by
  unfold replaceNLData
  exact List.flatMap_append a b _

theorem replaceNLData_not_mem (ind : List Char) (l : List Char) (h : '\n' ∉ l) :
    replaceNLData ind l = l := by
  induction l with
  | nil => rfl
  | cons c l ih =>
    have hc : ¬(c = '\n') := fun he => h (he ▸ List.mem_cons_self c l)
    show (if c = '\n' then '\n' :: ind else [c]) ++ replaceNLData ind l = c :: l
    rw [if_neg hc, ih fun hm => h (List.mem_cons_of_mem c hm)]
    rfl

theorem replaceNLData_nl (ind : List Char) (l : List Char) :
    replaceNLData ind ('\n' :: l) = '\n' :: ind ++ replaceNLData ind l := by
  show (if ('\n' : Char) = '\n' then '\n' :: ind else ['\n']) ++ replaceNLData ind l = _
  rw [if_pos rfl]

theorem intercalate_go_data (xs : List String) : ∀ (acc s : String),
    (String.intercalate.go acc s xs).data
      = acc.data ++ xs.flatMap fun x => s.data ++ x.data := by
  induction xs with
  | nil =>
    intro acc s
    simp [String.intercalate.go]
  | cons a as ih =>
    intro acc s
    rw [String.intercalate.go, ih]
    simp [String.data_append]

theorem intercalate_data (s x : String) (xs : List String) :
    (String.intercalate s (x :: xs)).data
      = x.data ++ xs.flatMap fun y => s.data ++ y.data := by
  show (String.intercalate.go x s xs).data = _
  rw [intercalate_go_data]

theorem itemStr_data (kv : String × String) :
    ("  " ++ jsonQuote kv.1 ++ ": " ++ kv.2).data = itemData kv := by
  rw [String.data_append, String.data_append, String.data_append]
  simp [itemData]

theorem nl_not_mem_itemData (kv : String × String) (h : '\n' ∉ kv.2.data) :
    '\n' ∉ itemData kv := by
  unfold itemData
  intro hm
  rcases List.mem_cons.mp hm with hm | hm
  · cases hm
  rcases List.mem_cons.mp hm with hm | hm
  · cases hm
  rcases List.mem_append.mp hm with hm | hm
  · exact nl_not_mem_jsonQuote kv.1 hm
  rcases List.mem_cons.mp hm with hm | hm
  · cases hm
  rcases List.mem_cons.mp hm with hm | hm
  · cases hm
  · exact h hm

theorem replace_sepitems (ind : List Char) (l : List (String × String))
    (hnl : ∀ kv ∈ l, '\n' ∉ kv.2.data) :
    replaceNLData ind (l.flatMap fun kv => [',', '\n'] ++ itemData kv)
      = l.flatMap fun kv => ',' :: '\n' :: ind ++ itemData kv := by
  induction l with
  | nil => rfl
  | cons kv l ih =>
    rw [List.flatMap_cons, List.flatMap_cons, replaceNLData_append]
    rw [ih fun x hx => hnl x (List.mem_cons_of_mem kv hx)]
    congr 1
    show replaceNLData ind (',' :: '\n' :: itemData kv) = _
    have h1 : replaceNLData ind (',' :: '\n' :: itemData kv)
        = [','] ++ replaceNLData ind ('\n' :: itemData kv) := rfl
    rw [h1, replaceNLData_nl, replaceNLData_not_mem ind _
      (nl_not_mem_itemData kv (hnl kv (List.mem_cons_self kv l)))]
    simp

/-- The full rendering of a re-indented non-empty flat object. -/
theorem replace_stringifyFlat2 (ind : List Char) (e : String × String)
    (rest : List (String × String))
    (hnl : ∀ kv ∈ e :: rest, '\n' ∉ kv.2.data) :
    replaceNLData ind (stringifyFlat2 (e :: rest)).data
      = '{' :: (('\n' :: ind ++ bodyData ind (e :: rest) ++ '\n' :: ind) ++ ['}']) := by
  show replaceNLData ind
    ("\x7b\n" ++ String.intercalate ",\n" ((e :: rest).map fun kv =>
      "  " ++ jsonQuote kv.1 ++ ": " ++ kv.2) ++ "\n\x7d").data = _
  rw [String.data_append, String.data_append, List.map_cons, intercalate_data]
  rw [replaceNLData_append, replaceNLData_append]
  have h1 : replaceNLData ind ("\x7b\n").data = '{' :: '\n' :: ind := by
    show replaceNLData ind ['{', '\n'] = _
    rw [show ('{' :: ['\n'] : List Char) = '{' :: '\n' :: [] from rfl]
    show (if ('{' : Char) = '\n' then '\n' :: ind else ['{']) ++ replaceNLData ind ['\n'] = _
    rw [if_neg (by decide), replaceNLData_nl]
    simp [replaceNLData]
  have h2 : replaceNLData ind ("\n\x7d").data = '\n' :: ind ++ ['}'] := by
    show replaceNLData ind ('\n' :: ['}']) = _
    rw [replaceNLData_nl]
    simp [replaceNLData]
  rw [h1, h2]
  have h3 : replaceNLData ind (("  " ++ jsonQuote e.1 ++ ": " ++ e.2).data
      ++ (rest.map fun kv => "  " ++ jsonQuote kv.1 ++ ": " ++ kv.2).flatMap
        fun y => (",\n").data ++ y.data)
      = bodyData ind (e :: rest) := by
    rw [replaceNLData_append, itemStr_data,
      replaceNLData_not_mem ind _ (nl_not_mem_itemData e (hnl e (List.mem_cons_self e rest)))]
    have h4 : ((rest.map fun kv => "  " ++ jsonQuote kv.1 ++ ": " ++ kv.2).flatMap
        fun y => (",\n").data ++ y.data)
        = rest.flatMap fun kv => [',', '\n'] ++ itemData kv := by
      rw [List.flatMap_map]
      congr 1
      funext kv
      show (",\n").data ++ ("  " ++ jsonQuote kv.1 ++ ": " ++ kv.2).data = _
      rw [itemStr_data]
    rw [h4, replace_sepitems ind rest fun x hx => hnl x (List.mem_cons_of_mem e hx)]
    rfl
  rw [h3]
  simp

/-! ### Members and object derivations -/

theorem memberR_item (k : String) (v : JVal) (vtext : String) (hv : JValR v vtext.data)
    (w1 wend : List Char) (h1 : IsWs w1) (hend : IsWs wend) :
    JMemberR (k, v) (w1 ++ itemData (k, vtext) ++ wend) := by
  have hw1 : IsWs (w1 ++ [' ', ' ']) := by
    intro c hc
    rcases List.mem_append.mp hc with h | h
    · exact h1 c h
    · fin_cases h <;> decide
  have helem : JElemR v ([' '] ++ vtext.data ++ wend) :=
    JElemR.mk v [' '] vtext.data wend (by decide) hv hend
  have base := JMemberR.mk k v (w1 ++ [' ', ' ']) (k.data.flatMap jsonEscapeChar) []
    ([' '] ++ vtext.data ++ wend) hw1 (jsonEscape_body k.data) (by decide) helem
  have heq : (w1 ++ [' ', ' ']) ++ '"' :: k.data.flatMap jsonEscapeChar
      ++ '"' :: ([] : List Char) ++ ':' :: ([' '] ++ vtext.data ++ wend)
      = w1 ++ itemData (k, vtext) ++ wend := by
    simp [itemData, jsonQuote_data]
  exact heq ▸ base

theorem membersR (ind : List Char) (hind : IsWs ('\n' :: ind)) :
    ∀ (ts : List (String × String × JVal)), ts ≠ [] →
    (∀ t ∈ ts, JValR t.2.2 t.2.1.data) →
    ∀ (w1 wend : List Char), IsWs w1 → IsWs wend →
    JMembersR (ts.map fun t => (t.1, t.2.2))
      (w1 ++ bodyData ind (ts.map fun t => (t.1, t.2.1)) ++ wend) := by
  intro ts
  induction ts with
  | nil => intro h; exact absurd rfl h
  | cons t ts ih =>
    intro _ hval w1 wend hw1 hwend
    rcases ts with _ | ⟨t2, rest⟩
    · apply JMembersR.single
      have hm := memberR_item t.1 t.2.2 t.2.1 (hval t (by simp)) w1 wend hw1 hwend
      have heq : w1 ++ itemData (t.1, t.2.1) ++ wend
          = w1 ++ bodyData ind ([t].map fun x => (x.1, x.2.1)) ++ wend := by
        simp [bodyData]
      exact heq ▸ hm
    · have hm := memberR_item t.1 t.2.2 t.2.1 (hval t (by simp)) w1 [] hw1 (by decide)
      have hrest := ih (by simp)
        (fun x hx => hval x (List.mem_cons_of_mem _ hx)) ('\n' :: ind) wend hind hwend
      have base := JMembersR.cons (t.1, t.2.2) ((t2 :: rest).map fun x => (x.1, x.2.2))
        (w1 ++ itemData (t.1, t.2.1) ++ [])
        ('\n' :: ind ++ bodyData ind ((t2 :: rest).map fun x => (x.1, x.2.1)) ++ wend)
        hm hrest
      have heq : (w1 ++ itemData (t.1, t.2.1) ++ []) ++ ','
          :: ('\n' :: ind ++ bodyData ind ((t2 :: rest).map fun x => (x.1, x.2.1)) ++ wend)
          = w1 ++ bodyData ind ((t :: t2 :: rest).map fun x => (x.1, x.2.1)) ++ wend := by
        simp [bodyData]
      exact heq ▸ base

/-- The object derivation for a re-indented non-empty flat object of
primitive values. -/
theorem objFlat2R (ind : List Char) (hind : IsWs ('\n' :: ind))
    (ts : List (String × String × JVal)) (hne : ts ≠ [])
    (hval : ∀ t ∈ ts, JValR t.2.2 t.2.1.data)
    (hnl : ∀ t ∈ ts, '\n' ∉ t.2.1.data) :
    JValR (.obj (ts.map fun t => (t.1, t.2.2)))
      (replaceNLData ind (stringifyFlat2 (ts.map fun t => (t.1, t.2.1))).data) := by
  rcases ts with _ | ⟨t, rest⟩
  · exact absurd rfl hne
  · simp only [List.map_cons]
    rw [replace_stringifyFlat2 ind _ _ ?hnl]
    case hnl =>
      intro kv hkv
      rcases List.mem_cons.mp hkv with h | h
      · rw [h]
        exact hnl t (List.mem_cons_self t rest)
      · rcases List.mem_map.mp h with ⟨x, hx, hmap⟩
        rw [← hmap]
        exact hnl x (List.mem_cons_of_mem t hx)
    have hmem := membersR ind hind (t :: rest) (by simp)
      hval ('\n' :: ind) ('\n' :: ind) hind hind
    have := JValR.obj ((t :: rest).map fun x => (x.1, x.2.2))
      ('\n' :: ind ++ bodyData ind ((t :: rest).map fun x => (x.1, x.2.1)) ++ '\n' :: ind)
      hmem
    exact this

/-! ### Instantiation at the task and metadata objects -/

theorem taskFields_prim (t : Task) : ∀ kv ∈ taskFields t, PrimOnly kv.2 := by
  intro kv hkv
  unfold taskFields at hkv
  rcases hd : t.description with _ | d <;>
    rcases hc : t.completedAt with _ | c0 <;>
      rcases he : t.estimatedTime with _ | e0 <;>
        rcases ha : t.actualTime with _ | a0 <;>
          simp only [hd, hc, he, ha, List.mem_append, List.mem_cons, List.not_mem_nil,
            or_false, List.nil_append, List.append_nil] at hkv <;>
          casesm* _ ∨ _ <;> subst_vars <;> trivial

theorem taskFields_ne_nil (t : Task) : taskFields t ≠ [] := by
  unfold taskFields
  intro h
  have := congrArg List.length h
  simp at this

theorem metaFields_prim (now n : Nat) : ∀ kv ∈ metaFields now n, PrimOnly kv.2 := by
  intro kv hkv
  unfold metaFields at hkv
  simp only [List.mem_cons, List.not_mem_nil, or_false] at hkv
  casesm* _ ∨ _ <;> subst_vars <;> trivial

theorem objFlat2R_fields (ind : List Char) (hind : IsWs ('\n' :: ind))
    (fields : List (String × JVal)) (hne : fields ≠ [])
    (hprim : ∀ kv ∈ fields, PrimOnly kv.2) :
    JValR (.obj fields)
      (replaceNLData ind
        (stringifyFlat2 (fields.map fun kv => (kv.1, renderPrim kv.2))).data) := by
  have h := objFlat2R ind hind (fields.map fun kv => (kv.1, renderPrim kv.2, kv.2))
    (by
      intro hmap
      exact hne (List.map_eq_nil_iff.mp hmap))
    (by
      intro tr htr
      rcases List.mem_map.mp htr with ⟨kv, hkv, hmap⟩
      rw [← hmap]
      exact (renderPrim_ok kv.2 (hprim kv hkv)).1)
    (by
      intro tr htr
      rcases List.mem_map.mp htr with ⟨kv, hkv, hmap⟩
      rw [← hmap]
      exact (renderPrim_ok kv.2 (hprim kv hkv)).2)
  rw [List.map_map, List.map_map] at h
  have e1 : ((fun (t : String × String × JVal) => (t.1, t.2.2))
      ∘ fun kv : String × JVal => (kv.1, renderPrim kv.2, kv.2)) = id := by
    funext kv
    rfl
  have e2 : ((fun (t : String × String × JVal) => (t.1, t.2.1))
      ∘ fun kv : String × JVal => (kv.1, renderPrim kv.2, kv.2))
      = fun kv : String × JVal => (kv.1, renderPrim kv.2) := by
    funext kv
    rfl
  rw [e1, e2, List.map_id] at h
  exact h

theorem taskJsonR (t : Task) : JValR (.obj (taskFields t)) (taskJson t).data :=
  objFlat2R_fields [' ', ' ', ' ', ' '] (by decide) (taskFields t)
    (taskFields_ne_nil t) (taskFields_prim t)

theorem metaJsonR (now n : Nat) :
    JValR (.obj (metaFields now n)) (replaceNL "  " (metadataJson now n)).data :=
  objFlat2R_fields [' ', ' '] (by decide) (metaFields now n)
    (by simp [metaFields]) (metaFields_prim now n)

/-! ### The tasks array -/

theorem tasksElemsR (ts : List Task) : ts ≠ [] →
    ∀ (pre wend : List Char), IsWs pre → IsWs wend →
    JElemsR (ts.map taskVal) (pre ++ (tasksBody ts).data ++ wend) := by
  induction ts with
  | nil => intro h; exact absurd rfl h
  | cons t ts ih =>
    intro _ pre wend hpre hwend
    have hpre4 : IsWs (pre ++ [' ', ' ', ' ', ' ']) := by
      intro c hc
      rcases List.mem_append.mp hc with h | h
      · exact hpre c h
      · fin_cases h <;> decide
    rcases ts with _ | ⟨t2, rest⟩
    · apply JElemsR.single
      have hnl : IsWs ('\n' :: wend) := by
        intro c hc
        rcases List.mem_cons.mp hc with h | h
        · rw [h]; decide
        · exact hwend c h
      have base := JElemR.mk (taskVal t) (pre ++ [' ', ' ', ' ', ' '])
        (taskJson t).data ('\n' :: wend) hpre4 (taskJsonR t) hnl
      have heq : (pre ++ [' ', ' ', ' ', ' ']) ++ (taskJson t).data ++ ('\n' :: wend)
          = pre ++ (tasksBody [t]).data ++ wend := by
        show _ = pre ++ ("    " ++ taskJson t ++ "\n").data ++ wend
        rw [String.data_append, String.data_append]
        simp
      exact heq ▸ base
    · have helem := JElemR.mk (taskVal t) (pre ++ [' ', ' ', ' ', ' '])
        (taskJson t).data [] hpre4 (taskJsonR t) (by decide)
      have hrest := ih (by simp) ['\n'] wend (by decide) hwend
      have base := JElemsR.cons (taskVal t) ((t2 :: rest).map taskVal)
        ((pre ++ [' ', ' ', ' ', ' ']) ++ (taskJson t).data ++ [])
        (['\n'] ++ (tasksBody (t2 :: rest)).data ++ wend) helem hrest
      have heq : ((pre ++ [' ', ' ', ' ', ' ']) ++ (taskJson t).data ++ []) ++ ','
            :: (['\n'] ++ (tasksBody (t2 :: rest)).data ++ wend)
          = pre ++ (tasksBody (t :: t2 :: rest)).data ++ wend := by
        show _ = pre ++ ("    " ++ taskJson t ++ ",\n" ++ tasksBody (t2 :: rest)).data ++ wend
        rw [String.data_append, String.data_append, String.data_append]
        simp
      exact heq ▸ base

theorem tasksArrR (ts : List Task) :
    JValR (.arr (ts.map taskVal))
      ('[' :: ('\n' :: (tasksBody ts).data ++ [' ', ' ']) ++ [']']) := by
  rcases ts with _ | ⟨t, rest⟩
  · have : ((tasksBody []).data : List Char) = [] := rfl
    rw [this]
    exact JValR.arrEmpty ['\n', ' ', ' '] (by decide)
  · have h := tasksElemsR (t :: rest) (by simp) ['\n'] [' ', ' '] (by decide) (by decide)
    have heq : (['\n'] ++ (tasksBody (t :: rest)).data ++ [' ', ' '])
        = ('\n' :: (tasksBody (t :: rest)).data ++ [' ', ' ']) := by simp
    rw [heq] at h
    exact JValR.arr _ _ h

theorem metadataItem_data (now : Nat) (ts : List Task) :
    (['\n'] ++ itemData ("metadata", replaceNL "  " (metadataJson now ts.length)) ++ ([] : List Char))
    = '\n' :: ' ' :: ' ' :: '"' :: 'm' :: 'e' :: 't' :: 'a' :: 'd' :: 'a' :: 't' :: 'a' :: '"'
      :: ':' :: ' ' :: (replaceNL "  " (metadataJson now ts.length)).data := by
  have hq : (jsonQuote "metadata").data
      = ['"', 'm', 'e', 't', 'a', 'd', 'a', 't', 'a', '"'] := by decide
  simp only [itemData, hq, List.cons_append, List.nil_append, List.append_nil, List.append_assoc]

theorem tasksMember_data (ts : List Task) :
    (['\n', ' ', ' '] ++ '"' :: "tasks".data.flatMap jsonEscapeChar
      ++ '"' :: ([] : List Char)
      ++ ':' :: ([' '] ++ ('[' :: ('\n' :: (tasksBody ts).data ++ [' ', ' ']) ++ [']']) ++ ['\n']))
    = '\n' :: ' ' :: ' ' :: '"' :: 't' :: 'a' :: 's' :: 'k' :: 's' :: '"' :: ':' :: ' '
      :: '[' :: '\n' :: ((tasksBody ts).data ++ [' ', ' ', ']', '\n']) := by
  have hk : ("tasks".data.flatMap jsonEscapeChar) = ['t', 'a', 's', 'k', 's'] := by decide
  simp only [hk, List.cons_append, List.nil_append, List.append_nil, List.append_assoc]

theorem generateJSON_data_unfold (now : Nat) (ts : List Task) :
    (generateJSON now ts).data = ("\x7b\n" : String).data ++ ("  \"metadata\": " : String).data
      ++ (replaceNL "  " (metadataJson now ts.length)).data ++ ((",\n" : String)).data
      ++ ("  \"tasks\": [\n" : String).data ++ (tasksBody ts).data
      ++ ("  ]\n" : String).data ++ ("\x7d\n" : String).data := by
  show ("\x7b\n" ++ "  \"metadata\": " ++ replaceNL "  " (metadataJson now ts.length)
    ++ ",\n" ++ "  \"tasks\": [\n" ++ tasksBody ts ++ "  ]\n" ++ "\x7d\n").data = _
  rw [String.data_append, String.data_append, String.data_append, String.data_append,
    String.data_append, String.data_append, String.data_append]

theorem docText_data (M B : List Char) :
    ([] : List Char) ++ ('{' :: (('\n' :: ' ' :: ' ' :: '"' :: 'm' :: 'e' :: 't' :: 'a' :: 'd'
      :: 'a' :: 't' :: 'a' :: '"' :: ':' :: ' ' :: M)
      ++ ',' :: ('\n' :: ' ' :: ' ' :: '"' :: 't' :: 'a' :: 's' :: 'k' :: 's' :: '"' :: ':'
        :: ' ' :: '[' :: '\n' :: (B ++ [' ', ' ', ']', '\n']))) ++ ['}']) ++ ['\n']
    = ("\x7b\n" : String).data ++ ("  \"metadata\": " : String).data ++ M ++ (",\n" : String).data
      ++ ("  \"tasks\": [\n" : String).data ++ B ++ ("  ]\n" : String).data
      ++ ("\x7d\n" : String).data := by
  have d1 : ("\x7b\n" : String).data = ['{', '\n'] := by decide
  have d2 : ("  \"metadata\": " : String).data
      = [' ', ' ', '"', 'm', 'e', 't', 'a', 'd', 'a', 't', 'a', '"', ':', ' '] := by decide
  have d3 : (",\n" : String).data = [',', '\n'] := by decide
  have d4 : ("  \"tasks\": [\n" : String).data
      = [' ', ' ', '"', 't', 'a', 's', 'k', 's', '"', ':', ' ', '[', '\n'] := by decide
  have d5 : ("  ]\n" : String).data = [' ', ' ', ']', '\n'] := by decide
  have d6 : ("\x7d\n" : String).data = ['}', '\n'] := by decide
  simp only [d1, d2, d3, d4, d5, d6, List.cons_append,
    List.nil_append, List.append_nil, List.append_assoc]

theorem generateJSON_data_eq (now : Nat) (ts : List Task) : ([] : List Char)
    ++ ('{' :: ((['\n'] ++ itemData ("metadata", replaceNL "  " (metadataJson now ts.length)) ++ [])
      ++ ',' :: (['\n', ' ', ' '] ++ '"' :: "tasks".data.flatMap jsonEscapeChar
        ++ '"' :: ([] : List Char)
        ++ ':' :: ([' '] ++ ('[' :: ('\n' :: (tasksBody ts).data ++ [' ', ' ']) ++ [']']) ++ ['\n'])))
      ++ ['}']) ++ ['\n']
    = (generateJSON now ts).data := by
  rw [generateJSON_data_unfold now ts, metadataItem_data now ts, tasksMember_data ts]
  exact docText_data (replaceNL "  " (metadataJson now ts.length)).data (tasksBody ts).data

theorem lookup_metadata (now : Nat) (ts : List Task) :
    lookupField "metadata" (exportDoc now ts) = some (.obj (metaFields now ts.length)) := rfl

theorem lookup_totalRecords (now n : Nat) :
    lookupField "totalRecords" (.obj (metaFields now n)) = some (.num n) := rfl

theorem lookup_tasks (now : Nat) (ts : List Task) :
    lookupField "tasks" (exportDoc now ts) = some (.arr (ts.map taskVal)) := rfl

/-- C6: for every list of N task records, the file `generateJSON` writes
derives in the json.org grammar (so it parses as syntactically valid JSON),
denoting a single object whose `metadata.totalRecords` equals N and whose
`tasks` array has exactly N elements — in particular the element commas are
correctly placed, the last element carrying none. -/
theorem generateJSON_valid (now : Nat) (ts : List Task) :
    ValidJson (exportDoc now ts) (generateJSON now ts)
    ∧ (∃ m, lookupField "metadata" (exportDoc now ts) = some m
        ∧ lookupField "totalRecords" m = some (.num ts.length))
    ∧ ∃ es, lookupField "tasks" (exportDoc now ts) = some (.arr es)
        ∧ es.length = ts.length := by
  refine ⟨?_, ⟨.obj (metaFields now ts.length), lookup_metadata now ts,
      lookup_totalRecords now ts.length⟩,
    ts.map taskVal, lookup_tasks now ts, by simp⟩
  have hm1 := memberR_item "metadata" (.obj (metaFields now ts.length))
    (replaceNL "  " (metadataJson now ts.length)) (metaJsonR now ts.length)
    ['\n'] [] (by decide) (by decide)
  have helem2 : JElemR (.arr (ts.map taskVal))
      ([' '] ++ ('[' :: ('\n' :: (tasksBody ts).data ++ [' ', ' ']) ++ [']']) ++ ['\n']) :=
    JElemR.mk _ [' '] _ ['\n'] (by decide) (tasksArrR ts) (by decide)
  have hm2 := JMemberR.mk "tasks" (.arr (ts.map taskVal)) ['\n', ' ', ' ']
    ("tasks".data.flatMap jsonEscapeChar) []
    ([' '] ++ ('[' :: ('\n' :: (tasksBody ts).data ++ [' ', ' ']) ++ [']']) ++ ['\n'])
    (by decide) (jsonEscape_body "tasks".data) (by decide) helem2
  have hmembers := JMembersR.cons ("metadata", .obj (metaFields now ts.length))
    [("tasks", .arr (ts.map taskVal))]
    (['\n'] ++ itemData ("metadata", replaceNL "  " (metadataJson now ts.length)) ++ [])
    (['\n', ' ', ' '] ++ '"' :: "tasks".data.flatMap jsonEscapeChar
      ++ '"' :: ([] : List Char)
      ++ ':' :: ([' '] ++ ('[' :: ('\n' :: (tasksBody ts).data ++ [' ', ' ']) ++ [']']) ++ ['\n']))
    hm1 (JMembersR.single _ _ hm2)
  have htop := JValR.obj
    [("metadata", .obj (metaFields now ts.length)), ("tasks", .arr (ts.map taskVal))]
    _ hmembers
  have helem := JElemR.mk _ ([] : List Char) _ ['\n'] (by decide) htop (by decide)
  show JElemR (exportDoc now ts) (generateJSON now ts).data
  exact generateJSON_data_eq now ts ▸ helem

end WsdExport
